import Mathlib

/-!
Verification of the normalization / denormalization engine of the
grx-signal-store repository.

The embedding models the TypeScript sources:
 * `normalizer.ts`  : `normalize`, `processEntity`, `denormalize`, `denormalizeSingle`
 * `schema.ts`      : `EntitySchema`, `RelationshipConfig`, `hasOne`, `hasMany`,
                      `createEntitySchema`, `OperationResult`
 * `with-normalization.ts` : store state, `addNormalizedData`, `updateEntity`,
                      `removeEntity`, `getEntityById`
 * the blog sample data and schemas (`blog.normalizers.ts` / the blog store)

JavaScript data is modelled by the inductive `Value`; plain objects are
association lists of string keys in insertion order (JS object semantics:
unique keys, `obj[k] = v` updates in place keeping the key position, new keys
are appended).  JS exceptions are modelled with `Except JsErr`; the engine's
recursive functions take a fuel parameter: the TypeScript recursion has no
cycle guard and genuinely overflows the stack on cyclic stored data, which the
fuel-exhaustion error `JsErr.stackOverflow` represents.  Numbers are modelled
by `Int` (no claim involves fractional values) and identifier values are
converted to object keys by `idToKey`, mirroring the JS string coercion of
property keys for the shapes that occur (strings, numbers, booleans, null;
array/object identifier values do not occur in any claim and get fixed
placeholder keys).
-/

namespace GrxNorm

/-- A JavaScript value (the data normalized / denormalized by the engine). -/
inductive Value where
  | vnull : Value
  | vstr (s : String) : Value
  | vint (n : Int) : Value
  | vbool (b : Bool) : Value
  | varr (elems : List Value) : Value
  | vobj (fields : List (String × Value)) : Value

/-- A stored entity record: a JS object, i.e. ordered fields. -/
abbrev Entity := List (String × Value)

/-- One entity type's collection, keyed by the stringified entity id
(`EntityMap` in `schema.ts`). -/
abbrev EntityMap := List (String × Entity)

/-- All collections, keyed by entity type (`Record<string, EntityMap>`). -/
abbrev Entities := List (String × EntityMap)

/-- The JS exceptions the engine can throw: the explicit `Schema not found for
key` error of `normalize`, the explicit `Entity ID not found using key` error
of `processEntity`, the implicit `TypeError` raised by a property read on an
`undefined` schema or on a `null` entity (the carried string is the property
context: the entity type, resp. the identifier key being read), and the stack
overflow reached by unbounded recursion (modelled as fuel exhaustion). -/
inductive JsErr where
  | schemaNotFound (key : String)
  | missingId (idKey ty : String)
  | typeError (ty : String)
  | stackOverflow

/-- RelationshipConfig of `schema.ts`: target type plus the `isArray` tag
distinguishing `HasMany` from `HasOne`. -/
structure Rel where
  type : String
  isArray : Bool

/-- The `hasOne` factory of `schema.ts`. -/
def hasOne (t : String) : Rel := ⟨t, false⟩

/-- The `hasMany` factory of `schema.ts`. -/
def hasMany (t : String) : Rel := ⟨t, true⟩

/-- EntitySchema of `schema.ts` (the `entity : Type<T>` field is a phantom
value and is omitted): both `idKey` and `relationships` are optional. -/
structure EntitySchema where
  idKey : Option String := none
  relationships : Option (List (String × Rel)) := none

/-- The `createEntitySchema` factory of `schema.ts` with its defaults. -/
def createEntitySchema (idKey : String := "id")
    (relationships : List (String × Rel) := []) : EntitySchema :=
  ⟨some idKey, some relationships⟩

/-- A schema map: entity-type name to schema, in declaration order. -/
abbrev SchemaMap := List (String × EntitySchema)

/-- Lookup of a JS object property (first matching key). -/
def assocGet (k : String) : List (String × α) → Option α
  | [] => none
  | (k', v) :: r => if k' = k then some v else assocGet k r

/-- JS property assignment `o[k] = v`: update in place keeping the key
position, append when the key is new. -/
def assocSet (k : String) (v : α) : List (String × α) → List (String × α)
  | [] => [(k, v)]
  | (k', v') :: r => if k' = k then (k, v) :: r else (k', v') :: assocSet k v r

/-- JS `delete o[k]`. -/
def assocErase (k : String) : List (String × α) → List (String × α)
  | [] => []
  | (k', v) :: r => if k' = k then assocErase k r else (k', v) :: assocErase k r

/-- Property read `v[k]` on an arbitrary value: reading a property of `null`
throws a `TypeError` (`Cannot read properties of null`), an object yields its
field value or `undefined` (`none`) when the key is absent, and any other
value yields `undefined` for the property names that occur here. -/
def fieldGet (v : Value) (k : String) : Except JsErr (Option Value) :=
  match v with
  | .vnull => .error (.typeError k)
  | .vobj fds => .ok (assocGet k fds)
  | _ => .ok none

/-- The fields of an object value (shallow copy source `{ ...entity }`). -/
def fieldsOf : Value → List (String × Value)
  | .vobj fds => fds
  | _ => []

/-- The identifier key of a schema: `schema.idKey || 'id'` (a missing or empty
key falls back to `"id"`). -/
def schemaIdKey (s : EntitySchema) : String :=
  match s.idKey with
  | none => "id"
  | some k => if k = "" then "id" else k

/-- The relationship entries walked by `Object.entries(schema.relationships)`;
an absent relationships record yields no entries. -/
def relsOf (s : EntitySchema) : List (String × Rel) :=
  s.relationships.getD []

/-- JS string coercion of an identifier value used as an object key.  Strings,
numbers, booleans and null follow JS exactly; array and object identifiers do
not occur in the repository or in any claim and get placeholder keys. -/
def idToKey : Value → String
  | .vstr s => s
  | .vint n => toString n
  | .vbool b => if b then "true" else "false"
  | .vnull => "null"
  | .varr _ => "<array>"
  | .vobj _ => "[object Object]"

/-- JS truthiness of a value (`if (input)` in `normalize`). -/
def truthy : Value → Bool
  | .vnull => false
  | .vstr s => !s.isEmpty
  | .vint n => n != 0
  | .vbool b => b
  | .varr _ => true
  | .vobj _ => true

/-- Whether a value is an array (`Array.isArray`). -/
def Value.isArr : Value → Bool
  | .varr _ => true
  | _ => false

/-- Whether a value is the JS `null`. -/
def Value.isNullV : Value → Bool
  | .vnull => true
  | _ => false

/-- Initialization of a type's collection when missing
(`normalizedData.entities[entityType] = {}` guarded by existence): JS adds the
new key at the end. -/
def ensureColl (st : Entities) (ty : String) : Entities :=
  match assocGet ty st with
  | some _ => st
  | none => st ++ [(ty, [])]

/-- The store `normalizedData.entities[entityType][entityId] = processedEntity`
at the end of `processEntity`; the type's collection exists at that point. -/
def insertEnt (st : Entities) (ty k : String) (ent : Entity) : Entities :=
  assocSet ty (assocSet k ent ((assocGet ty st).getD [])) st

/-- Sequential processing of an array of entities (the `input.map` /
`value.map` calls of `normalize` and `processEntity`): ids are collected in
input order, the entity state is threaded left to right, and the first thrown
error aborts the whole call. -/
def processItemsF (f : Value → Entities → Except JsErr (Value × Entities)) :
    List Value → Entities → Except JsErr (List Value × Entities)
  | [], st => .ok ([], st)
  | it :: rest, st => do
    let (idv, st') ← f it st
    let (ids, st'') ← processItemsF f rest st'
    .ok (idv :: ids, st'')

/-- The relationship loop of `processEntity`: for each declared relationship
in order, read the field from the (partially rewritten) copy, skip `undefined`
fields, rewrite plural array values to the list of recursively produced ids,
rewrite singular non-null values to the single produced id, and leave every
other shape untouched.  The recursive calls receive `schemaMap[config.type]`,
which may be `undefined`. -/
def processRelsF (smap : SchemaMap)
    (f : Value → String → Option EntitySchema → Entities → Except JsErr (Value × Entities)) :
    List (String × Rel) → List (String × Value) → Entities →
    Except JsErr (List (String × Value) × Entities)
  | [], fds, st => .ok (fds, st)
  | (k, rel) :: rest, fds, st =>
    match assocGet k fds with
    | none => processRelsF smap f rest fds st
    | some v =>
      if rel.isArray then
        match v with
        | .varr items => do
          let (ids, st') ← processItemsF
            (fun it s => f it rel.type (assocGet rel.type smap) s) items st
          processRelsF smap f rest (assocSet k (.varr ids) fds) st'
        | _ => processRelsF smap f rest fds st
      else
        match v with
        | .vnull => processRelsF smap f rest fds st
        | _ => do
          let (idv, st') ← f v rel.type (assocGet rel.type smap) st
          processRelsF smap f rest (assocSet k idv fds) st'

/-- processEntity of `normalizer.ts`.  An `undefined` schema makes the first
property read `schema.idKey` throw a `TypeError`; the identifier read
`entity[idKey]` throws a `TypeError` when the entity is `null`; an identifier
read yielding `undefined` throws the `Entity ID not found` error; otherwise
the entity is shallow copied, its relationship fields are rewritten to ids,
and the processed record is stored under its stringified id, after its nested
entities (the fuel argument models the unbounded JS recursion). -/
def processEntity (smap : SchemaMap) :
    Nat → Value → String → Option EntitySchema → Entities → Except JsErr (Value × Entities)
  | 0, _, _, _, _ => .error .stackOverflow
  | fuel+1, e, ty, oschema, st =>
    match oschema with
    | none => .error (.typeError ty)
    | some schema =>
      match fieldGet e (schemaIdKey schema) with
      | .error err => .error err
      | .ok none => .error (.missingId (schemaIdKey schema) ty)
      | .ok (some entityId) => do
        let (fds, st1) ← processRelsF smap (processEntity smap fuel)
          (relsOf schema) (fieldsOf e) (ensureColl st ty)
        .ok (entityId, insertEnt st1 ty (idToKey entityId) fds)

/-- The `result` field of `NormalizedData`: a single id for an object input,
an ordered id list for an array input, and `undefined` for a falsy non-array
input (the initial `undefined as unknown as EntityId`). -/
inductive NResult where
  | one (id : Value)
  | many (ids : List Value)
  | undef

/-- NormalizedData of `schema.ts`: per-type collections plus the result. -/
structure NormalizedData where
  entities : Entities
  result : NResult

/-- normalize of `normalizer.ts`: resolve the root schema (throwing
`Schema not found for key` when absent), then process an array elementwise or
a truthy single value, starting from empty collections. -/
def normalize (fuel : Nat) (input : Value) (schemaKey : String) (smap : SchemaMap) :
    Except JsErr NormalizedData :=
  match assocGet schemaKey smap with
  | none => .error (.schemaNotFound schemaKey)
  | some schema =>
    match input with
    | .varr items => do
      let (ids, st) ← processItemsF
        (fun it s => processEntity smap fuel it schemaKey (some schema) s) items []
      .ok ⟨st, .many ids⟩
    | _ =>
      if truthy input then do
        let (idv, st) ← processEntity smap fuel input schemaKey (some schema) []
        .ok ⟨st, .one idv⟩
      else .ok ⟨[], .undef⟩

/-- The `ids.map(id => denormalizeSingle(...)).filter(Boolean)` pattern used
both for an array argument of `denormalize` and for plural relationship
fields: each id is denormalized independently, `null` results are dropped, and
a thrown error aborts the call. -/
def denormIdsF (g : Value → String → Except JsErr (Option Entity)) (tyt : String) :
    List Value → Except JsErr (List Value)
  | [] => .ok []
  | idv :: rest => do
    let r ← g idv tyt
    let others ← denormIdsF g tyt rest
    .ok (match r with | some ent => Value.vobj ent :: others | none => others)

/-- The relationship loop of `denormalizeSingle`: plural array fields are
rewritten to the null-filtered list of resolved entities, singular non-null
fields to the resolved entity or `null`, everything else is left untouched. -/
def denormRelsF (g : Value → String → Except JsErr (Option Entity)) :
    List (String × Rel) → Entity → Except JsErr Entity
  | [], fds => .ok fds
  | (k, rel) :: rest, fds =>
    match assocGet k fds with
    | none => denormRelsF g rest fds
    | some v =>
      if rel.isArray then
        match v with
        | .varr ids => do
          let outs ← denormIdsF g rel.type ids
          denormRelsF g rest (assocSet k (.varr outs) fds)
        | _ => denormRelsF g rest fds
      else
        match v with
        | .vnull => denormRelsF g rest fds
        | _ => do
          let r ← g v rel.type
          denormRelsF g rest
            (assocSet k (match r with | some ent => Value.vobj ent | none => Value.vnull) fds)

/-- denormalizeSingle of `normalizer.ts`: a missing collection or missing id
returns `null` before the schema is ever read; a stored entity whose type has
no schema makes `schema.relationships` throw a `TypeError`; otherwise the
stored record is shallow copied and its relationship fields are resolved
recursively (fuel models the guard-less recursion over stored data). -/
def denormalizeSingle (smap : SchemaMap) (entities : Entities) :
    Nat → Value → String → Except JsErr (Option Entity)
  | 0, _, _ => .error .stackOverflow
  | fuel+1, idv, ty =>
    match assocGet ty entities with
    | none => .ok none
    | some coll =>
      match assocGet (idToKey idv) coll with
      | none => .ok none
      | some ent =>
        match assocGet ty smap with
        | none => .error (.typeError ty)
        | some schema => do
          let fds ← denormRelsF (denormalizeSingle smap entities fuel) (relsOf schema) ent
          .ok (some fds)

/-- denormalize of `normalizer.ts`: an array of ids maps to the null-filtered
array of resolved entities; a single id resolves to the entity or `null`. -/
def denormalize (smap : SchemaMap) (entities : Entities) (fuel : Nat)
    (idv : Value) (ty : String) : Except JsErr Value :=
  match idv with
  | .varr ids => do
    let outs ← denormIdsF (denormalizeSingle smap entities fuel) ty ids
    .ok (.varr outs)
  | _ => do
    let r ← denormalizeSingle smap entities fuel idv ty
    .ok (match r with | some ent => .vobj ent | none => .vnull)

/-! Store layer (`with-normalization.ts`). -/

/-- NormalizationState of `with-normalization.ts`: the held collections plus
the per-type loading flags. -/
structure StoreState where
  entities : Entities
  loading : List (String × Bool)

/-- The initial state built by `withNormalization`: one empty collection and a
`false` loading flag per declared entity type, in schema-map order. -/
def initialState (smap : SchemaMap) : StoreState :=
  ⟨smap.map (fun ts => (ts.1, [])), smap.map (fun ts => (ts.1, false))⟩

/-- The first patch of `addNormalizedData`: the target type's loading flag is
set to `true`. -/
def startLoading (st : StoreState) (ty : String) : StoreState :=
  { st with loading := assocSet ty true st.loading }

/-- The `finally` patch of `addNormalizedData`: the target type's loading flag
is set back to `false`. -/
def stopLoading (st : StoreState) (ty : String) : StoreState :=
  { st with loading := assocSet ty false st.loading }

/-- The merge `{ ...updatedEntities[type], ...entities }` of one collection:
existing ids are overwritten in place, new ids are appended in order. -/
def mergeColl (old new : EntityMap) : EntityMap :=
  new.foldl (fun acc kv => assocSet kv.1 kv.2 acc) old

/-- The merge loop of `addNormalizedData` over `normalizedData.entities`. -/
def mergeEntities (old new : Entities) : Entities :=
  new.foldl (fun acc tv => assocSet tv.1 (mergeColl ((assocGet tv.1 acc).getD []) tv.2) acc) old

/-- addNormalizedData of `with-normalization.ts`: set the loading flag, run
`normalize` and merge its collections, and reset the flag in a `finally`
block; a thrown normalization error skips the merge (nothing of it is ever
patched into the state) and is re-raised after the flag reset. -/
def addNormalizedData (smap : SchemaMap) (fuel : Nat) (st : StoreState)
    (input : Value) (ty : String) : Except JsErr Unit × StoreState :=
  let st1 := startLoading st ty
  match normalize fuel input ty smap with
  | .error e => (.error e, stopLoading st1 ty)
  | .ok nd => (.ok (), stopLoading { st1 with entities := mergeEntities st1.entities nd.entities } ty)

/-- getEntityById of `with-normalization.ts`: direct non-recursive lookup. -/
def getEntityById (st : StoreState) (ty : String) (idv : Value) : Option Entity :=
  (assocGet ty st.entities).bind (assocGet (idToKey idv))

/-- OperationResult of `schema.ts`. -/
inductive OpResult where
  | success (data : Entity)
  | failure (error : String)

/-- The shallow merge `{ ...entityMap[id], ...changes }`. -/
def mergeFields (old changes : Entity) : Entity :=
  changes.foldl (fun acc kv => assocSet kv.1 kv.2 acc) old

/-- The failure message of `updateEntity`. -/
def updateFailMsg (ty : String) (idv : Value) : String :=
  "Entity with ID " ++ idToKey idv ++ " not found in collection " ++ ty

/-- updateEntity of `with-normalization.ts`: a missing collection or missing
id returns a failure result without patching anything; otherwise the changes
are shallow-merged onto the stored record, the state is patched, and the
merged record is returned (the surrounding `try`/`catch` is unreachable in
this pure model). -/
def updateEntity (st : StoreState) (ty : String) (idv : Value) (changes : Entity) :
    OpResult × StoreState :=
  match assocGet ty st.entities with
  | none => (.failure (updateFailMsg ty idv), st)
  | some coll =>
    match assocGet (idToKey idv) coll with
    | none => (.failure (updateFailMsg ty idv), st)
    | some old =>
      let merged := mergeFields old changes
      (.success merged,
       { st with entities := assocSet ty (assocSet (idToKey idv) merged coll) st.entities })

/-- removeEntity of `with-normalization.ts`: a missing collection or missing
id returns without patching; otherwise the id is deleted from a copy of the
collection and the state is patched. -/
def removeEntity (st : StoreState) (ty : String) (idv : Value) : StoreState :=
  match assocGet ty st.entities with
  | none => st
  | some coll =>
    match assocGet (idToKey idv) coll with
    | none => st
    | some _ => { st with entities := assocSet ty (assocErase (idToKey idv) coll) st.entities }

/-! The blog schemas and sample dataset (`blog.normalizers.ts` and the
normalized blog store). -/

/-- The blog schema map: users keyed by `username`, comments with a singular
`author` relationship, posts with a singular `author` and a plural `comments`
relationship. -/
def blogSchemas : SchemaMap :=
  [("users", createEntitySchema "username"),
   ("comments", createEntitySchema "id" [("author", hasOne "users")]),
   ("posts", createEntitySchema "id" [("author", hasOne "users"), ("comments", hasMany "comments")])]

/-- A nested author object of the sample data. -/
def mkUser (u n : String) : Value :=
  .vobj [("username", .vstr u), ("name", .vstr n)]

/-- A nested comment object of the sample data. -/
def mkComment (i : String) (a : Value) (c : String) : Value :=
  .vobj [("id", .vstr i), ("author", a), ("comment", .vstr c)]

/-- sampleBlogData: two posts, five comments, three users. -/
def sampleBlogData : Value :=
  .varr
    [.vobj [("id", .vstr "post1"),
            ("author", mkUser "user1" "User 1"),
            ("body", .vstr "This is the first post content."),
            ("comments", .varr
              [mkComment "comment1" (mkUser "user2" "User 2") "Great post!",
               mkComment "comment2" (mkUser "user3" "User 3") "I learned a lot from this."])],
     .vobj [("id", .vstr "post2"),
            ("author", mkUser "user2" "User 2"),
            ("body", .vstr "This is the second post content."),
            ("comments", .varr
              [mkComment "comment3" (mkUser "user3" "User 3") "Interesting perspective!",
               mkComment "comment4" (mkUser "user1" "User 1") "I disagree with some points.",
               mkComment "comment5" (mkUser "user3" "User 3") "Could you elaborate more?"])]]

/-! Well-formedness of a schema map and the mirror of the traversal's
missing-identifier check, used to state claim C6. -/

/-- A schema map as TypeScript can actually build it: relationship records
have unique keys, and — for the closed-map reading of C6 — every relationship
target type is declared. -/
def SchemaWF (smap : SchemaMap) : Prop :=
  ∀ ts ∈ smap, ((relsOf ts.2).map Prod.fst).Nodup ∧
    ∀ kr ∈ relsOf ts.2, (assocGet kr.2.type smap).isSome = true

/-- Whether one relationship entry of an entity (with original fields `fds0`)
leads to a nested entity satisfying the recursive check, mirroring exactly the
shapes `processEntity` recurses into: elements of a plural array value, and a
singular non-null value. -/
def relVisit (recur : Value → String → Bool) (fds0 : List (String × Value))
    (kr : String × Rel) : Bool :=
  match assocGet kr.1 fds0 with
  | none => false
  | some v =>
    if kr.2.isArray then
      match v with
      | .varr items => items.any (fun it => recur it kr.2.type)
      | _ => false
    else
      match v with
      | .vnull => false
      | _ => recur v kr.2.type

/-- Whether some non-null entity visited when normalizing `e` against type
`ty` has an identifier read yielding `undefined` — the inputs whose traversal
throws the `Entity ID not found` error.  A `null` visited entity is not a
missing-identifier case: its identifier read throws a `TypeError` instead, so
the mirror stops there without counting it (the dichotomy below excludes such
inputs through `anyNullEnt`). -/
def anyMissingId (smap : SchemaMap) : Nat → Value → String → Bool
  | 0, _, _ => false
  | fuel + 1, e, ty =>
    match assocGet ty smap with
    | none => false
    | some s =>
      match fieldGet e (schemaIdKey s) with
      | .error _ => false
      | .ok none => true
      | .ok (some _) => (relsOf s).any (relVisit (anyMissingId smap fuel) (fieldsOf e))

/-- The missing-identifier check lifted to a whole `normalize` input. -/
def anyMissingInput (smap : SchemaMap) (fuel : Nat) (input : Value) (ty : String) : Bool :=
  match input with
  | .varr items => items.any (fun it => anyMissingId smap fuel it ty)
  | _ => truthy input && anyMissingId smap fuel input ty

/-- Whether the traversal of `e` against type `ty` visits a `null` entity —
the inputs whose identifier read `entity[idKey]` throws a `TypeError` rather
than the missing-identifier error.  An entity with an `undefined` identifier
stops the traversal before any recursion, so nothing below it counts. -/
def anyNullEnt (smap : SchemaMap) : Nat → Value → String → Bool
  | 0, _, _ => false
  | fuel + 1, e, ty =>
    e.isNullV ||
    match assocGet ty smap with
    | none => false
    | some s =>
      match fieldGet e (schemaIdKey s) with
      | .ok (some _) => (relsOf s).any (relVisit (anyNullEnt smap fuel) (fieldsOf e))
      | _ => false

/-- The null-entity check lifted to a whole `normalize` input (a falsy
non-array input, `null` included, is skipped by `normalize` itself). -/
def anyNullInput (smap : SchemaMap) (fuel : Nat) (input : Value) (ty : String) : Bool :=
  match input with
  | .varr items => items.any (fun it => anyNullEnt smap fuel it ty)
  | _ => truthy input && anyNullEnt smap fuel input ty

/-! Pure mirrors and well-formedness notions used to state and prove the
round-trip claim C1. -/

/-- The identifier value `processEntity` extracts for an entity of a given
type: the raw field value at the schema's identifier key (the well-formed
entities this mirror is applied to are objects, whose identifier read never
throws). -/
def entId (smap : SchemaMap) (ty : String) (e : Value) : Value :=
  match assocGet ty smap with
  | none => .vnull
  | some s => (assocGet (schemaIdKey s) (fieldsOf e)).getD .vnull

/-- One step of the relationship rewrite performed by `processEntity` on the
entity copy, as a pure function: a plural array value becomes the ids of its
elements, a singular non-null value becomes its id. -/
def normRelStep (smap : SchemaMap) (fds : List (String × Value)) (kr : String × Rel) :
    List (String × Value) :=
  match assocGet kr.1 fds with
  | none => fds
  | some v =>
    if kr.2.isArray then
      match v with
      | .varr items => assocSet kr.1 (.varr (items.map (fun it => entId smap kr.2.type it))) fds
      | _ => fds
    else
      match v with
      | .vnull => fds
      | _ => assocSet kr.1 (entId smap kr.2.type v) fds

/-- The relationship rewrite over a whole relationship list. -/
def normFieldsAux (smap : SchemaMap) : List (String × Rel) → List (String × Value) →
    List (String × Value)
  | [], fds => fds
  | kr :: rest, fds => normFieldsAux smap rest (normRelStep smap fds kr)

/-- The record `processEntity` stores for an entity: its fields with every
relationship field rewritten to ids. -/
def normFields (smap : SchemaMap) (ty : String) (e : Value) : List (String × Value) :=
  match assocGet ty smap with
  | none => fieldsOf e
  | some s => normFieldsAux smap (relsOf s) (fieldsOf e)

/-- Whether one relationship value of an entity is well-formed nested input:
an absent field or a singular `null` is fine, a plural field must hold an
array of well-formed entities, a singular field a well-formed entity. -/
def relWF (recurW : Value → String → Bool) (fds0 : List (String × Value))
    (kr : String × Rel) : Bool :=
  match assocGet kr.1 fds0 with
  | none => true
  | some v =>
    if kr.2.isArray then
      match v with
      | .varr items => items.all (fun it => recurW it kr.2.type)
      | _ => false
    else
      match v with
      | .vnull => true
      | _ => recurW v kr.2.type

/-- Well-formed nested input for a type: an object with a declared schema, a
non-null non-array identifier value, uniquely keyed relationship declarations
(as TypeScript records guarantee), and well-formed relationship values. -/
def wfE (smap : SchemaMap) : Nat → Value → String → Bool
  | 0, _, _ => false
  | fuel + 1, e, ty =>
    match assocGet ty smap with
    | none => false
    | some s =>
      match e with
      | .vobj fds =>
        (match assocGet (schemaIdKey s) fds with
         | none => false
         | some idv => !idv.isNullV && !idv.isArr) &&
        decide (((relsOf s).map Prod.fst).Nodup) &&
        (relsOf s).all (relWF (fun e2 ty2 => wfE smap fuel e2 ty2) fds)
      | _ => false

/-- Well-formed input to `normalize`: an entity or an array of entities. -/
def wfInput (smap : SchemaMap) (fuel : Nat) (input : Value) (ty : String) : Bool :=
  match input with
  | .varr items => items.all (fun it => wfE smap fuel it ty)
  | _ => wfE smap fuel input ty

/-- The nested entities one relationship value contributes to a traversal. -/
def relCollect (recurC : Value → String → List (String × String × Value))
    (fds0 : List (String × Value)) (kr : String × Rel) :
    List (String × String × Value) :=
  match assocGet kr.1 fds0 with
  | none => []
  | some v =>
    if kr.2.isArray then
      match v with
      | .varr items => items.foldr (fun it acc => recurC it kr.2.type ++ acc) []
      | _ => []
    else
      match v with
      | .vnull => []
      | _ => recurC v kr.2.type

/-- Every (type, stringified id, entity value) visited when normalizing an
entity, nested entities first, the entity itself last — the store order of
`processEntity`. -/
def collectEnts (smap : SchemaMap) : Nat → Value → String → List (String × String × Value)
  | 0, _, _ => []
  | fuel + 1, e, ty =>
    match assocGet ty smap with
    | none => []
    | some s =>
      ((relsOf s).foldr
        (fun kr acc => relCollect (fun e2 ty2 => collectEnts smap fuel e2 ty2)
          (fieldsOf e) kr ++ acc) []) ++
      [(ty, idToKey (entId smap ty e), e)]

/-- The visited entities of a whole `normalize` input. -/
def collectInput (smap : SchemaMap) (fuel : Nat) (input : Value) (ty : String) :
    List (String × String × Value) :=
  match input with
  | .varr items => items.foldr (fun it acc => collectEnts smap fuel it ty ++ acc) []
  | _ => collectEnts smap fuel input ty

/-- Fuel-bounded structural equality of values (sound: `true` implies
equality). -/
def vbeq : Nat → Value → Value → Bool
  | 0, _, _ => false
  | fuel + 1, a, b =>
    match a, b with
    | .vnull, .vnull => true
    | .vstr s1, .vstr s2 => s1 == s2
    | .vint n1, .vint n2 => n1 == n2
    | .vbool b1, .vbool b2 => b1 == b2
    | .varr xs, .varr ys =>
      xs.length == ys.length && (xs.zip ys).all (fun p => vbeq fuel p.1 p.2)
    | .vobj xs, .vobj ys =>
      xs.length == ys.length &&
      (xs.zip ys).all (fun p => p.1.1 == p.2.1 && vbeq fuel p.1.2 p.2.2)
    | _, _ => false

/-- Identifier consistency of a traversal: any two visited entities of the
same type whose identifiers coincide as object keys are equal values. -/
def consistentKeyed (fuel : Nat) : List (String × String × Value) → Bool
  | [] => true
  | (t, k, e) :: rest =>
    rest.all (fun b => !(t == b.1 && k == b.2.1) || vbeq fuel e b.2.2) &&
    consistentKeyed fuel rest

/-- The `result` of a `NormalizedData` as the id argument a caller passes back
to `denormalize` (an id or an array of ids). -/
def resultValue : NResult → Value
  | .one v => v
  | .many l => .varr l
  | .undef => .vnull

/-- What a traversal does to the held collections: every (type, key) outside
the visited set is untouched, every visited (type, key) holds the normalized
record of one of the entities visited under it. -/
def Effect (smap : SchemaMap) (st st' : Entities)
    (L : List (String × String × Value)) : Prop :=
  ∀ t k, ((assocGet t st').bind (assocGet k) = (assocGet t st).bind (assocGet k) ∧
          ∀ e2, (t, k, e2) ∉ L) ∨
         (∃ e2, (t, k, e2) ∈ L ∧
           (assocGet t st').bind (assocGet k) = some (normFields smap t e2))

/-- The collections hold the normalized record of every visited entity. -/
def StoresAll (smap : SchemaMap) (st : Entities)
    (L : List (String × String × Value)) : Prop :=
  ∀ tri ∈ L, (assocGet tri.1 st).bind (assocGet tri.2.1) =
    some (normFields smap tri.1 tri.2.2)

/-- Propositional identifier consistency. -/
def ConsistentL (L : List (String × String × Value)) : Prop :=
  ∀ tri1 ∈ L, ∀ tri2 ∈ L, tri1.1 = tri2.1 → tri1.2.1 = tri2.2.1 → tri1.2.2 = tri2.2.2

/-! Concrete artifacts used by the claims below. -/

/-- The collections produced by normalizing the sample blog data (the posts
collection is created first because `processEntity` initializes the root
type's collection before recursing into relationships). -/
def blogNormalizedEntities : Entities :=
  [("posts",
    [("post1",
      [("id", .vstr "post1"), ("author", .vstr "user1"),
       ("body", .vstr "This is the first post content."),
       ("comments", .varr [.vstr "comment1", .vstr "comment2"])]),
     ("post2",
      [("id", .vstr "post2"), ("author", .vstr "user2"),
       ("body", .vstr "This is the second post content."),
       ("comments", .varr [.vstr "comment3", .vstr "comment4", .vstr "comment5"])])]),
   ("users",
    [("user1", [("username", .vstr "user1"), ("name", .vstr "User 1")]),
     ("user2", [("username", .vstr "user2"), ("name", .vstr "User 2")]),
     ("user3", [("username", .vstr "user3"), ("name", .vstr "User 3")])]),
   ("comments",
    [("comment1",
      [("id", .vstr "comment1"), ("author", .vstr "user2"),
       ("comment", .vstr "Great post!")]),
     ("comment2",
      [("id", .vstr "comment2"), ("author", .vstr "user3"),
       ("comment", .vstr "I learned a lot from this.")]),
     ("comment3",
      [("id", .vstr "comment3"), ("author", .vstr "user3"),
       ("comment", .vstr "Interesting perspective!")]),
     ("comment4",
      [("id", .vstr "comment4"), ("author", .vstr "user1"),
       ("comment", .vstr "I disagree with some points.")]),
     ("comment5",
      [("id", .vstr "comment5"), ("author", .vstr "user3"),
       ("comment", .vstr "Could you elaborate more?")])])]

/-- The denormalized view of `post1`: author and both comments resolved to
full objects, comment authors resolved as well. -/
def blogDenormalizedPost1 : Value :=
  .vobj
    [("id", .vstr "post1"),
     ("author", mkUser "user1" "User 1"),
     ("body", .vstr "This is the first post content."),
     ("comments", .varr
       [mkComment "comment1" (mkUser "user2" "User 2") "Great post!",
        mkComment "comment2" (mkUser "user3" "User 3") "I learned a lot from this."])]

/-- The store state after loading the sample blog data into a fresh store. -/
def blogStoreLoaded : StoreState :=
  (addNormalizedData blogSchemas 10 (initialState blogSchemas) sampleBlogData "posts").2

/-- The store state after additionally removing `comment1`. -/
def blogStoreRemoved : StoreState :=
  removeEntity blogStoreLoaded "comments" (.vstr "comment1")

/-! Association-list lemmas (JS object semantics). -/

@[simp]
theorem assocGet_assocSet_self (k : String) (v : α) (l : List (String × α)) :
    assocGet k (assocSet k v l) = some v := by
  induction l with
  | nil => simp [assocSet, assocGet]
  | cons p t ih =>
    obtain ⟨a, b⟩ := p
    by_cases h : a = k <;> simp [assocSet, assocGet, h, ih]

theorem assocGet_assocSet_ne (h : k' ≠ k) (v : α) (l : List (String × α)) :
    assocGet k' (assocSet k v l) = assocGet k' l := by
  induction l with
  | nil => simp [assocSet, assocGet, Ne.symm h]
  | cons p t ih =>
    obtain ⟨a, b⟩ := p
    by_cases ha : a = k
    · subst ha
      simp [assocSet, assocGet, Ne.symm h, ih]
    · simp [assocSet, assocGet, ha, ih]

@[simp]
theorem assocGet_assocErase_self (k : String) (l : List (String × α)) :
    assocGet k (assocErase k l) = none := by
  induction l with
  | nil => simp [assocErase, assocGet]
  | cons p t ih =>
    obtain ⟨a, b⟩ := p
    by_cases h : a = k <;> simp [assocErase, assocGet, h, ih]

theorem assocGet_assocErase_ne (h : k' ≠ k) (l : List (String × α)) :
    assocGet k' (assocErase k l) = assocGet k' l := by
  induction l with
  | nil => simp [assocErase, assocGet]
  | cons p t ih =>
    obtain ⟨a, b⟩ := p
    by_cases ha : a = k
    · subst ha
      simp [assocErase, assocGet, Ne.symm h, ih]
    · by_cases hb : a = k' <;> simp [assocErase, assocGet, ha, hb, h, ih]

/-! Claim C9: the concrete blog scenario. -/



/-- C9: normalizing the sample blog data with root type `posts` yields exactly
the expected collections — 3 users, 5 comments, 2 posts — with
`result = ["post1", "post2"]`, and denormalizing `"post1"` from the produced
collections yields the post with `author` resolved to the full user1 object
and `comments` resolved to the full comment1 and comment2 objects in order,
each with its own author resolved. -/
theorem blog_scenario_spec :
    normalize 10 sampleBlogData "posts" blogSchemas =
      .ok ⟨blogNormalizedEntities, .many [.vstr "post1", .vstr "post2"]⟩ ∧
    (assocGet "users" blogNormalizedEntities).map List.length = some 3 ∧
    (assocGet "comments" blogNormalizedEntities).map List.length = some 5 ∧
    (assocGet "posts" blogNormalizedEntities).map List.length = some 2 ∧
    denormalize blogSchemas blogNormalizedEntities 10 (.vstr "post1") "posts" =
      .ok blogDenormalizedPost1 :=
  ⟨rfl, rfl, rfl, rfl, rfl⟩

/-! Claim C2: missing schemas. -/

/-- C2 counterexample: the claim says every `denormalize` call whose root type
is absent from the schema map throws a SchemaNotFound error, but with the type
also absent from the collections the code returns `null` before the schema map
is ever consulted — a recoverable result value, not a thrown failure. -/
theorem schema_missing_counterexample :
    assocGet "users" ([] : SchemaMap) = none ∧
    denormalize [] [] 1 (.vstr "u1") "users" = .ok .vnull :=
  ⟨rfl, rfl⟩

/-- C2 amended: a root type absent from the schema map makes `normalize` throw
the SchemaNotFound error; a relationship target type absent from the schema
map makes the recursive `processEntity` call throw a `TypeError` (reading
`idKey` of the `undefined` schema) — still a thrown failure, never a result
value; `denormalize` never throws SchemaNotFound: with the type absent from
the stored collections it returns `null`, and with a stored entity whose type
lacks a schema it throws a `TypeError` (reading `relationships` of the
`undefined` schema). -/
theorem schema_missing_spec :
    (∀ (fuel : Nat) (input : Value) (ty : String) (smap : SchemaMap),
      assocGet ty smap = none →
      normalize fuel input ty smap = .error (.schemaNotFound ty)) ∧
    (∀ (smap : SchemaMap) (fuel : Nat) (e : Value) (ty : String) (st : Entities),
      processEntity smap (fuel + 1) e ty none st = .error (.typeError ty)) ∧
    (∀ (smap : SchemaMap) (entities : Entities) (fuel : Nat) (idv : Value) (ty : String),
      assocGet ty entities = none →
      denormalizeSingle smap entities (fuel + 1) idv ty = .ok none) ∧
    (∀ (smap : SchemaMap) (entities : Entities) (fuel : Nat) (idv : Value) (ty : String)
      (coll : EntityMap) (ent : Entity),
      assocGet ty entities = some coll → assocGet (idToKey idv) coll = some ent →
      assocGet ty smap = none →
      denormalizeSingle smap entities (fuel + 1) idv ty = .error (.typeError ty)) := by
  refine ⟨?_, ?_, ?_, ?_⟩
  · intro fuel input ty smap h
    simp [normalize, h]
  · intro smap fuel e ty st
    simp [processEntity]
  · intro smap entities fuel idv ty h
    simp [denormalizeSingle, h]
  · intro smap entities fuel idv ty coll ent h1 h2 h3
    simp [denormalizeSingle, h1, h2, h3]

/-- C2 witness: the three error-raising cases of the amended claim at concrete
inputs. -/
theorem schema_missing_witness :
    normalize 3 (.vstr "x") "posts" [] = .error (.schemaNotFound "posts") ∧
    processEntity [] 1 (.vobj []) "users" none [] = .error (.typeError "users") ∧
    denormalizeSingle [] [] 1 (.vstr "u1") "users" = .ok none ∧
    denormalizeSingle [] [("users", [("u1", [("username", .vstr "u1")])])] 1
      (.vstr "u1") "users" = .error (.typeError "users") :=
  ⟨schema_missing_spec.1 3 (.vstr "x") "posts" [] rfl,
   schema_missing_spec.2.1 [] 0 (.vobj []) "users" [],
   schema_missing_spec.2.2.1 [] [] 0 (.vstr "u1") "users" rfl,
   schema_missing_spec.2.2.2 [] [("users", [("u1", [("username", .vstr "u1")])])] 0
     (.vstr "u1") "users" [("u1", [("username", .vstr "u1")])]
     [("username", .vstr "u1")] rfl rfl rfl⟩

/-! Claim C3: updateEntity. -/

/-- C3: when the identifier is absent from the type's collection,
`updateEntity` returns a failure result and the whole store state — entities
and loading flags alike — is returned unchanged; when it is present, the
changes are shallow-merged onto the stored record, the merged record is
returned in a success result and stored back under the same id, and every
other entity of every type, as well as the loading flags, is unchanged. -/
theorem updateEntity_spec :
    ∀ (st : StoreState) (ty : String) (idv : Value) (changes : Entity),
    ((assocGet ty st.entities).bind (assocGet (idToKey idv)) = none →
      updateEntity st ty idv changes = (.failure (updateFailMsg ty idv), st)) ∧
    (∀ coll old, assocGet ty st.entities = some coll →
      assocGet (idToKey idv) coll = some old →
      updateEntity st ty idv changes =
        (.success (mergeFields old changes),
         { st with entities :=
             assocSet ty (assocSet (idToKey idv) (mergeFields old changes) coll) st.entities }) ∧
      (assocGet ty (updateEntity st ty idv changes).2.entities).bind
          (assocGet (idToKey idv)) = some (mergeFields old changes) ∧
      (∀ ty2, ty2 ≠ ty →
        assocGet ty2 (updateEntity st ty idv changes).2.entities = assocGet ty2 st.entities) ∧
      (∀ k2, k2 ≠ idToKey idv →
        (assocGet ty (updateEntity st ty idv changes).2.entities).bind (assocGet k2) =
          (assocGet ty st.entities).bind (assocGet k2)) ∧
      (updateEntity st ty idv changes).2.loading = st.loading) := by
  intro st ty idv changes
  constructor
  · intro h
    unfold updateEntity
    cases hc : assocGet ty st.entities with
    | none => rfl
    | some coll =>
      rw [hc, Option.some_bind] at h
      simp [h]
  · intro coll old hc ho
    have hupd : updateEntity st ty idv changes =
        (.success (mergeFields old changes),
         { st with entities :=
             assocSet ty (assocSet (idToKey idv) (mergeFields old changes) coll) st.entities }) := by
      unfold updateEntity
      simp [hc, ho]
    refine ⟨hupd, ?_, ?_, ?_, ?_⟩
    · rw [hupd]
      simp
    · intro ty2 h2
      rw [hupd]
      simpa using assocGet_assocSet_ne h2 _ st.entities
    · intro k2 h2
      rw [hupd]
      simp [hc, assocGet_assocSet_ne h2]
    · rw [hupd]

/-- C3 witness: both branches at a concrete store — a missing id fails and
leaves the state alone, a present id is shallow-merged and returned. -/
theorem updateEntity_witness :
    updateEntity ⟨[("users", [("u1", [("username", .vstr "u1"), ("name", .vstr "A")])])],
        [("users", false)]⟩ "users" (.vstr "zz") [] =
      (.failure (updateFailMsg "users" (.vstr "zz")),
       ⟨[("users", [("u1", [("username", .vstr "u1"), ("name", .vstr "A")])])],
        [("users", false)]⟩) ∧
    updateEntity ⟨[("users", [("u1", [("username", .vstr "u1"), ("name", .vstr "A")])])],
        [("users", false)]⟩ "users" (.vstr "u1") [("name", .vstr "B")] =
      (.success [("username", .vstr "u1"), ("name", .vstr "B")],
       ⟨[("users", [("u1", [("username", .vstr "u1"), ("name", .vstr "B")])])],
        [("users", false)]⟩) :=
  ⟨(updateEntity_spec ⟨[("users", [("u1", [("username", .vstr "u1"), ("name", .vstr "A")])])],
      [("users", false)]⟩ "users" (.vstr "zz") []).1 rfl,
   ((updateEntity_spec ⟨[("users", [("u1", [("username", .vstr "u1"), ("name", .vstr "A")])])],
      [("users", false)]⟩ "users" (.vstr "u1") [("name", .vstr "B")]).2
      [("u1", [("username", .vstr "u1"), ("name", .vstr "A")])]
      [("username", .vstr "u1"), ("name", .vstr "A")] rfl rfl).1⟩

/-! Claims C8 and C10: addNormalizedData and the loading flag. -/

/-- C8: every `addNormalizedData` call first patches the target type's loading
flag to `true` (the state after the opening patch reads `true`), and the state
it finally returns — whether normalization succeeded or threw — has the flag
back at `false`; the flag never remains stuck at loading. -/
theorem addNormalizedData_loading_spec :
    ∀ (smap : SchemaMap) (fuel : Nat) (st : StoreState) (input : Value) (ty : String),
    assocGet ty (startLoading st ty).loading = some true ∧
    assocGet ty (addNormalizedData smap fuel st input ty).2.loading = some false := by
  intro smap fuel st input ty
  constructor
  · simp [startLoading]
  · unfold addNormalizedData
    cases hn : normalize fuel input ty smap with
    | error e => simp [stopLoading]
    | ok nd => simp [stopLoading]

/-- C10: when the internal normalization throws, `addNormalizedData` re-raises
the same error and the returned state carries exactly the prior entities — no
collection is even partially merged — with the target type's loading flag
reset to `false`. -/
theorem addNormalizedData_atomic_on_error :
    ∀ (smap : SchemaMap) (fuel : Nat) (st : StoreState) (input : Value) (ty : String)
      (e : JsErr), normalize fuel input ty smap = .error e →
    addNormalizedData smap fuel st input ty =
      (.error e, { st with loading := assocSet ty false (assocSet ty true st.loading) }) ∧
    (addNormalizedData smap fuel st input ty).2.entities = st.entities ∧
    assocGet ty (addNormalizedData smap fuel st input ty).2.loading = some false := by
  intro smap fuel st input ty e h
  have hdef : addNormalizedData smap fuel st input ty =
      (.error e, { st with loading := assocSet ty false (assocSet ty true st.loading) }) := by
    unfold addNormalizedData
    simp [h, startLoading, stopLoading]
  exact ⟨hdef, by rw [hdef], by rw [hdef]; simp⟩

/-- C10 witness: a root type missing from the schema map makes the internal
normalization throw, and the store state comes back with its entities intact
and the flag reset. -/
theorem addNormalizedData_atomic_witness :
    addNormalizedData [] 5 ⟨[("users", [("u1", [("name", .vstr "A")])])], [("posts", true)]⟩
      (.vstr "x") "posts" =
      (.error (.schemaNotFound "posts"),
       ⟨[("users", [("u1", [("name", .vstr "A")])])],
        [("posts", false)]⟩) := by
  have h := addNormalizedData_atomic_on_error [] 5
    ⟨[("users", [("u1", [("name", .vstr "A")])])], [("posts", true)]⟩
    (.vstr "x") "posts" (.schemaNotFound "posts") rfl
  rw [h.1]
  rfl

/-! Except-monad computation lemmas. -/

@[simp]
theorem except_ok_bind (a : α) (f : α → Except ε β) :
    (Except.ok a : Except ε α) >>= f = f a := rfl

@[simp]
theorem except_error_bind (e : ε) (f : α → Except ε β) :
    (Except.error e : Except ε α) >>= f = .error e := rfl

@[simp]
theorem except_bind_ok_id (m : Except ε α) :
    (m >>= fun a => (Except.ok a : Except ε α)) = m := by
  cases m <;> rfl

/-! Shared lemmas about denormalization of id lists. -/

/-- A missing collection or missing identifier makes `denormalizeSingle`
return `null` before the schema map is consulted. -/
theorem denormalizeSingle_absent (smap : SchemaMap) (entities : Entities)
    (fuel : Nat) (idv : Value) (ty : String)
    (h : (assocGet ty entities).bind (assocGet (idToKey idv)) = none) :
    denormalizeSingle smap entities (fuel + 1) idv ty = .ok none := by
  unfold denormalizeSingle
  cases hc : assocGet ty entities with
  | none => rfl
  | some coll =>
    rw [hc, Option.some_bind] at h
    simp [h]

/-- Identifiers that resolve to `null` contribute nothing to the
mapped-and-filtered resolution of an id list. -/
theorem denormIdsF_skip (g : Value → String → Except JsErr (Option Entity)) (tyt : String)
    (p : Value → Bool) (hg : ∀ x, p x = true → g x tyt = .ok none) :
    ∀ ids, denormIdsF g tyt ids = denormIdsF g tyt (ids.filter (fun x => !(p x))) := by
  intro ids
  induction ids with
  | nil => rfl
  | cons x rest ih =>
    by_cases hx : p x = true
    · simp [denormIdsF, List.filter_cons, hx, hg x hx, ih]
    · rw [eq_comm] at ih
      simp only [Bool.not_eq_true] at hx
      simp [denormIdsF, List.filter_cons, hx, ih]

/-- When every id of a list resolves without an error, the list resolution is
the sequence of the individual results with `null` results dropped. -/
theorem denormIdsF_forall (g : Value → String → Except JsErr (Option Entity)) (tyt : String)
    (ids : List Value) (rs : List (Option Entity))
    (h : List.Forall₂ (fun j r => g j tyt = .ok r) ids rs) :
    denormIdsF g tyt ids = .ok ((rs.filterMap id).map Value.vobj) := by
  induction h with
  | nil => rfl
  | cons hj _ ih =>
    rename_i j r ids2 rs2 _
    cases r <;> simp [denormIdsF, hj, ih, List.filterMap_cons]

/-! Claim C4: removeEntity. -/

/-- The state patched by a successful removal. -/
theorem removeEntity_present (st : StoreState) (ty : String) (idv : Value)
    (coll : EntityMap) (ent : Entity)
    (hc : assocGet ty st.entities = some coll)
    (ho : assocGet (idToKey idv) coll = some ent) :
    removeEntity st ty idv =
      { st with entities := assocSet ty (assocErase (idToKey idv) coll) st.entities } := by
  unfold removeEntity
  simp [hc, ho]



/-- C4: `removeEntity` deletes exactly the given identifier from the given
type's collection when present and is a no-op when absent; every other entity
of every type and the loading flags are untouched; afterwards the removed id
resolves to `null` and the mapped-and-filtered plural resolution of any id
list behaves as if the removed identifier were deleted from the list.  On the
blog dataset, removing `comment1` leaves the raw `post1` record still listing
`["comment1", "comment2"]` while its denormalized view shows only the full
`comment2` object. -/
theorem removeEntity_spec :
    (∀ (st : StoreState) (ty : String) (idv : Value) (coll : EntityMap) (ent : Entity),
      assocGet ty st.entities = some coll → assocGet (idToKey idv) coll = some ent →
      removeEntity st ty idv =
        { st with entities := assocSet ty (assocErase (idToKey idv) coll) st.entities } ∧
      (assocGet ty (removeEntity st ty idv).entities).bind (assocGet (idToKey idv)) = none ∧
      (∀ ty2, ty2 ≠ ty →
        assocGet ty2 (removeEntity st ty idv).entities = assocGet ty2 st.entities) ∧
      (∀ k2, k2 ≠ idToKey idv →
        (assocGet ty (removeEntity st ty idv).entities).bind (assocGet k2) =
          (assocGet ty st.entities).bind (assocGet k2)) ∧
      (removeEntity st ty idv).loading = st.loading) ∧
    (∀ (st : StoreState) (ty : String) (idv : Value),
      (assocGet ty st.entities).bind (assocGet (idToKey idv)) = none →
      removeEntity st ty idv = st) ∧
    (∀ (smap : SchemaMap) (st : StoreState) (ty : String) (idv : Value)
       (coll : EntityMap) (ent : Entity) (fuel : Nat) (ids : List Value),
      assocGet ty st.entities = some coll → assocGet (idToKey idv) coll = some ent →
      denormalizeSingle smap (removeEntity st ty idv).entities (fuel + 1) idv ty = .ok none ∧
      denormIdsF (denormalizeSingle smap (removeEntity st ty idv).entities (fuel + 1)) ty ids =
        denormIdsF (denormalizeSingle smap (removeEntity st ty idv).entities (fuel + 1)) ty
          (ids.filter (fun x => !(idToKey x == idToKey idv)))) ∧
    (getEntityById blogStoreRemoved "posts" (.vstr "post1") =
      some [("id", .vstr "post1"), ("author", .vstr "user1"),
            ("body", .vstr "This is the first post content."),
            ("comments", .varr [.vstr "comment1", .vstr "comment2"])] ∧
     denormalize blogSchemas blogStoreRemoved.entities 10 (.vstr "post1") "posts" =
       .ok (.vobj
         [("id", .vstr "post1"),
          ("author", mkUser "user1" "User 1"),
          ("body", .vstr "This is the first post content."),
          ("comments", .varr
            [mkComment "comment2" (mkUser "user3" "User 3") "I learned a lot from this."])])) := by
  have habs : ∀ (st : StoreState) (ty : String) (idv : Value) (coll : EntityMap) (ent : Entity),
      assocGet ty st.entities = some coll → assocGet (idToKey idv) coll = some ent →
      (assocGet ty (removeEntity st ty idv).entities).bind (assocGet (idToKey idv)) = none := by
    intro st ty idv coll ent hc ho
    rw [removeEntity_present st ty idv coll ent hc ho]
    simp
  refine ⟨?_, ?_, ?_, rfl, rfl⟩
  · intro st ty idv coll ent hc ho
    have hrem := removeEntity_present st ty idv coll ent hc ho
    refine ⟨hrem, habs st ty idv coll ent hc ho, ?_, ?_, ?_⟩
    · intro ty2 h2
      rw [hrem]
      simpa using assocGet_assocSet_ne h2 _ st.entities
    · intro k2 h2
      rw [hrem]
      simp [hc, assocGet_assocErase_ne h2]
    · rw [hrem]
  · intro st ty idv h
    unfold removeEntity
    cases hc : assocGet ty st.entities with
    | none => rfl
    | some coll =>
      rw [hc, Option.some_bind] at h
      simp [h]
  · intro smap st ty idv coll ent fuel ids hc ho
    have hnone := habs st ty idv coll ent hc ho
    refine ⟨denormalizeSingle_absent _ _ _ _ _ hnone, ?_⟩
    refine denormIdsF_skip _ _ (fun x => idToKey x == idToKey idv) ?_ ids
    intro x hx
    have hkey : idToKey x = idToKey idv := eq_of_beq hx
    refine denormalizeSingle_absent _ _ _ _ _ ?_
    rw [hkey]
    exact hnone

/-- C4 witness: the general parts instantiated at a one-user store. -/
theorem removeEntity_witness :
    removeEntity ⟨[("users", [("u1", [("username", .vstr "u1")])])], [("users", false)]⟩
      "users" (.vstr "u1") =
      ⟨[("users", [])], [("users", false)]⟩ ∧
    removeEntity ⟨[("users", [("u1", [("username", .vstr "u1")])])], [("users", false)]⟩
      "users" (.vstr "zz") =
      ⟨[("users", [("u1", [("username", .vstr "u1")])])], [("users", false)]⟩ ∧
    denormIdsF (denormalizeSingle [("users", createEntitySchema "username")]
        (removeEntity ⟨[("users", [("u1", [("username", .vstr "u1")])])], [("users", false)]⟩
          "users" (.vstr "u1")).entities 1) "users" [.vstr "u1"] =
      denormIdsF (denormalizeSingle [("users", createEntitySchema "username")]
        (removeEntity ⟨[("users", [("u1", [("username", .vstr "u1")])])], [("users", false)]⟩
          "users" (.vstr "u1")).entities 1) "users" [] :=
  ⟨(removeEntity_spec.1 ⟨[("users", [("u1", [("username", .vstr "u1")])])], [("users", false)]⟩
      "users" (.vstr "u1") [("u1", [("username", .vstr "u1")])] [("username", .vstr "u1")]
      rfl rfl).1,
   removeEntity_spec.2.1 ⟨[("users", [("u1", [("username", .vstr "u1")])])], [("users", false)]⟩
      "users" (.vstr "zz") rfl,
   (removeEntity_spec.2.2.1 [("users", createEntitySchema "username")]
      ⟨[("users", [("u1", [("username", .vstr "u1")])])], [("users", false)]⟩
      "users" (.vstr "u1") [("u1", [("username", .vstr "u1")])] [("username", .vstr "u1")]
      0 [.vstr "u1"] rfl rfl).2⟩

/-! Claim C5: denormalize null handling. -/

/-- C5: denormalizing a single identifier returns `null` — not an error —
whenever the type's collection or the identifier is absent; denormalizing an
array of identifiers yields the sequence of the independent results with all
`null` results filtered out; and the plural-relationship resolution of an id
list likewise silently drops identifiers that resolve to `null` instead of
raising an error. -/
theorem denormalize_null_handling :
    (∀ (smap : SchemaMap) (entities : Entities) (fuel : Nat) (idv : Value) (ty : String),
      (assocGet ty entities).bind (assocGet (idToKey idv)) = none →
      denormalizeSingle smap entities (fuel + 1) idv ty = .ok none) ∧
    (∀ (smap : SchemaMap) (entities : Entities) (fuel : Nat) (ids : List Value) (ty : String)
       (rs : List (Option Entity)),
      List.Forall₂ (fun j r => denormalizeSingle smap entities fuel j ty = .ok r) ids rs →
      denormalize smap entities fuel (.varr ids) ty =
        .ok (.varr ((rs.filterMap id).map Value.vobj))) ∧
    (∀ (smap : SchemaMap) (entities : Entities) (fuel : Nat) (ids : List Value) (ty : String)
       (j : Value),
      (assocGet ty entities).bind (assocGet (idToKey j)) = none →
      denormIdsF (denormalizeSingle smap entities (fuel + 1)) ty ids =
        denormIdsF (denormalizeSingle smap entities (fuel + 1)) ty
          (ids.filter (fun x => !(idToKey x == idToKey j)))) := by
  refine ⟨fun smap entities fuel idv ty h => denormalizeSingle_absent smap entities fuel idv ty h,
    ?_, ?_⟩
  · intro smap entities fuel ids ty rs h
    simp [denormalize, denormIdsF_forall _ _ _ _ h]
  · intro smap entities fuel ids ty j h
    refine denormIdsF_skip _ _ (fun x => idToKey x == idToKey j) ?_ ids
    intro x hx
    refine denormalizeSingle_absent _ _ _ _ _ ?_
    rw [eq_of_beq hx]
    exact h

/-- C5 witness: a present and an absent id over a one-user store — the absent
id resolves to `null`, the pair resolves to the single-element array, and the
absent id is dropped from the list resolution. -/
theorem denormalize_null_witness :
    denormalizeSingle [("users", createEntitySchema "username")]
      [("users", [("u1", [("username", .vstr "u1")])])] 1 (.vstr "zz") "users" = .ok none ∧
    denormalize [("users", createEntitySchema "username")]
      [("users", [("u1", [("username", .vstr "u1")])])] 1
      (.varr [.vstr "u1", .vstr "zz"]) "users" =
      .ok (.varr [.vobj [("username", .vstr "u1")]]) ∧
    denormIdsF (denormalizeSingle [("users", createEntitySchema "username")]
        [("users", [("u1", [("username", .vstr "u1")])])] 1) "users"
        [.vstr "u1", .vstr "zz"] =
      denormIdsF (denormalizeSingle [("users", createEntitySchema "username")]
        [("users", [("u1", [("username", .vstr "u1")])])] 1) "users" [.vstr "u1"] :=
  ⟨denormalize_null_handling.1 [("users", createEntitySchema "username")]
      [("users", [("u1", [("username", .vstr "u1")])])] 0 (.vstr "zz") "users" rfl,
   denormalize_null_handling.2.1 [("users", createEntitySchema "username")]
      [("users", [("u1", [("username", .vstr "u1")])])] 1
      [.vstr "u1", .vstr "zz"] "users" [some [("username", .vstr "u1")], none]
      (List.Forall₂.cons rfl (List.Forall₂.cons rfl List.Forall₂.nil)),
   denormalize_null_handling.2.2 [("users", createEntitySchema "username")]
      [("users", [("u1", [("username", .vstr "u1")])])] 0
      [.vstr "u1", .vstr "zz"] "users" (.vstr "zz") rfl⟩

/-! Claim C7: order preservation.  The id produced for an entity is exactly
the value found at its schema's identifier key, ids of array inputs and of
plural relationship values are collected in input order, and the stored entity
carries the id sequence of its plural relationship fields. -/

/-- A successful `processEntity` call received a present schema and returned
exactly the value at the schema's identifier key. -/
theorem processEntity_ok_id (smap : SchemaMap) (fuel : Nat) (e : Value) (ty : String)
    (os : Option EntitySchema) (st : Entities) (idv : Value) (st' : Entities)
    (h : processEntity smap fuel e ty os st = .ok (idv, st')) :
    ∃ s2, os = some s2 ∧ fieldGet e (schemaIdKey s2) = .ok (some idv) := by
  cases fuel with
  | zero => simp [processEntity] at h
  | succ fuel =>
    cases os with
    | none => simp [processEntity] at h
    | some s =>
      refine ⟨s, rfl, ?_⟩
      rw [processEntity] at h
      cases hid : fieldGet e (schemaIdKey s) with
      | error er => rw [hid] at h; simp at h
      | ok oid =>
        cases oid with
        | none => rw [hid] at h; simp at h
        | some i =>
          rw [hid] at h
          cases hr : processRelsF smap (processEntity smap fuel) (relsOf s) (fieldsOf e)
              (ensureColl st ty) with
          | error er => rw [hr] at h; simp at h
          | ok p =>
            rw [hr] at h
            obtain ⟨fds, st1⟩ := p
            simp only [except_ok_bind, Except.ok.injEq, Prod.mk.injEq] at h
            rw [h.1]

/-- A successful `processItemsF` run relates inputs and produced ids
pointwise and in order. -/
theorem processItemsF_forall (f : Value → Entities → Except JsErr (Value × Entities))
    (P : Value → Value → Prop)
    (hf : ∀ it st idv st', f it st = .ok (idv, st') → P it idv) :
    ∀ (items : List Value) (st : Entities) (ids : List Value) (st' : Entities),
      processItemsF f items st = .ok (ids, st') → List.Forall₂ P items ids := by
  intro items
  induction items with
  | nil =>
    intro st ids st' h
    simp only [processItemsF, Except.ok.injEq, Prod.mk.injEq] at h
    rw [← h.1]
    exact List.Forall₂.nil
  | cons it rest ih =>
    intro st ids st' h
    rw [processItemsF] at h
    cases hf1 : f it st with
    | error er => rw [hf1] at h; simp at h
    | ok p =>
      rw [hf1] at h
      obtain ⟨idv, st1⟩ := p
      simp only [except_ok_bind] at h
      cases hrec : processItemsF f rest st1 with
      | error er => rw [hrec] at h; simp at h
      | ok q =>
        rw [hrec] at h
        obtain ⟨ids2, st2⟩ := q
        simp only [except_ok_bind, Except.ok.injEq, Prod.mk.injEq] at h
        rw [← h.1]
        exact List.Forall₂.cons (hf it st idv st1 hf1) (ih st1 ids2 st2 hrec)

/-! Unfolding equations for the branch shapes of the engine's recursion;
each is definitional once the discriminating lookups are rewritten. -/

theorem processItemsF_cons (f : Value → Entities → Except JsErr (Value × Entities))
    (it : Value) (rest : List Value) (st : Entities) :
    processItemsF f (it :: rest) st =
      f it st >>= fun p => processItemsF f rest p.2 >>= fun q => .ok (p.1 :: q.1, q.2) := rfl

theorem processRelsF_cons_absent (smap : SchemaMap) (f) (k1 : String) (rel : Rel)
    (rest : List (String × Rel)) (fds : List (String × Value)) (st : Entities)
    (hv : assocGet k1 fds = none) :
    processRelsF smap f ((k1, rel) :: rest) fds st = processRelsF smap f rest fds st := by
  rw [processRelsF, hv]

theorem processRelsF_cons_plural (smap : SchemaMap) (f) (k1 tyt : String)
    (rest : List (String × Rel)) (fds : List (String × Value)) (st : Entities)
    (items : List Value) (hv : assocGet k1 fds = some (.varr items)) :
    processRelsF smap f ((k1, ⟨tyt, true⟩) :: rest) fds st =
      processItemsF (fun it s => f it tyt (assocGet tyt smap) s) items st >>= fun p =>
        processRelsF smap f rest (assocSet k1 (.varr p.1) fds) p.2 := by
  rw [processRelsF, hv]
  rfl

theorem processRelsF_cons_plural_nonarr (smap : SchemaMap) (f) (k1 tyt : String)
    (rest : List (String × Rel)) (fds : List (String × Value)) (st : Entities)
    (v : Value) (hv : assocGet k1 fds = some v) (hna : v.isArr = false) :
    processRelsF smap f ((k1, ⟨tyt, true⟩) :: rest) fds st =
      processRelsF smap f rest fds st := by
  rw [processRelsF, hv]
  cases v with
  | varr l => simp [Value.isArr] at hna
  | vnull => rfl
  | vstr s => rfl
  | vint n => rfl
  | vbool b => rfl
  | vobj o => rfl

theorem processRelsF_cons_single_null (smap : SchemaMap) (f) (k1 tyt : String)
    (rest : List (String × Rel)) (fds : List (String × Value)) (st : Entities)
    (hv : assocGet k1 fds = some .vnull) :
    processRelsF smap f ((k1, ⟨tyt, false⟩) :: rest) fds st =
      processRelsF smap f rest fds st := by
  rw [processRelsF, hv]
  rfl

theorem processRelsF_cons_single (smap : SchemaMap) (f) (k1 tyt : String)
    (rest : List (String × Rel)) (fds : List (String × Value)) (st : Entities)
    (v : Value) (hv : assocGet k1 fds = some v) (hnn : v.isNullV = false) :
    processRelsF smap f ((k1, ⟨tyt, false⟩) :: rest) fds st =
      f v tyt (assocGet tyt smap) st >>= fun p =>
        processRelsF smap f rest (assocSet k1 p.1 fds) p.2 := by
  rw [processRelsF, hv]
  cases v with
  | vnull => simp [Value.isNullV] at hnn
  | varr l => rfl
  | vstr s => rfl
  | vint n => rfl
  | vbool b => rfl
  | vobj o => rfl

theorem fieldGet_error_elim {e : Value} {k : String} {err : JsErr}
    (h : fieldGet e k = .error err) : e = .vnull := by
  cases e with
  | vnull => rfl
  | vstr s => simp [fieldGet] at h
  | vint n => simp [fieldGet] at h
  | vbool b => simp [fieldGet] at h
  | varr l => simp [fieldGet] at h
  | vobj o => simp [fieldGet] at h

theorem fieldGet_ok_notnull {e : Value} {k : String} {oi : Option Value}
    (h : fieldGet e k = .ok oi) : e.isNullV = false := by
  cases e with
  | vnull => simp [fieldGet] at h
  | vstr s => rfl
  | vint n => rfl
  | vbool b => rfl
  | varr l => rfl
  | vobj o => rfl

theorem processEntity_noid (smap : SchemaMap) (fuel : Nat) (e : Value) (ty : String)
    (s : EntitySchema) (st : Entities) (hid : fieldGet e (schemaIdKey s) = .ok none) :
    processEntity smap (fuel + 1) e ty (some s) st =
      .error (.missingId (schemaIdKey s) ty) := by
  rw [processEntity, hid]

theorem processEntity_succ (smap : SchemaMap) (fuel : Nat) (e : Value) (ty : String)
    (s : EntitySchema) (st : Entities) (i : Value)
    (hid : fieldGet e (schemaIdKey s) = .ok (some i)) :
    processEntity smap (fuel + 1) e ty (some s) st =
      processRelsF smap (processEntity smap fuel) (relsOf s) (fieldsOf e) (ensureColl st ty) >>=
        fun p => .ok (i, insertEnt p.2 ty (idToKey i) p.1) := by
  rw [processEntity, hid]

theorem normalize_noschema (fuel : Nat) (input : Value) (ty : String) (smap : SchemaMap)
    (h : assocGet ty smap = none) :
    normalize fuel input ty smap = .error (.schemaNotFound ty) := by
  unfold normalize
  rw [h]

theorem normalize_arr (fuel : Nat) (items : List Value) (ty : String) (smap : SchemaMap)
    (schema : EntitySchema) (h : assocGet ty smap = some schema) :
    normalize fuel (.varr items) ty smap =
      processItemsF (fun it s => processEntity smap fuel it ty (some schema) s) items [] >>=
        fun p => .ok ⟨p.2, .many p.1⟩ := by
  unfold normalize
  rw [h]

theorem denormIdsF_cons (g : Value → String → Except JsErr (Option Entity)) (tyt : String)
    (i : Value) (rest : List Value) :
    denormIdsF g tyt (i :: rest) =
      g i tyt >>= fun r => denormIdsF g tyt rest >>= fun others =>
        .ok (match r with | some ent => Value.vobj ent :: others | none => others) := rfl

theorem denormRelsF_cons_absent (g) (k1 : String) (rel : Rel)
    (rest : List (String × Rel)) (fds : Entity) (hv : assocGet k1 fds = none) :
    denormRelsF g ((k1, rel) :: rest) fds = denormRelsF g rest fds := by
  rw [denormRelsF, hv]

theorem denormRelsF_cons_plural (g) (k1 tyt : String)
    (rest : List (String × Rel)) (fds : Entity) (ids : List Value)
    (hv : assocGet k1 fds = some (.varr ids)) :
    denormRelsF g ((k1, ⟨tyt, true⟩) :: rest) fds =
      denormIdsF g tyt ids >>= fun outs =>
        denormRelsF g rest (assocSet k1 (.varr outs) fds) := by
  rw [denormRelsF, hv]
  rfl

theorem denormRelsF_cons_plural_nonarr (g) (k1 tyt : String)
    (rest : List (String × Rel)) (fds : Entity) (v : Value)
    (hv : assocGet k1 fds = some v) (hna : v.isArr = false) :
    denormRelsF g ((k1, ⟨tyt, true⟩) :: rest) fds = denormRelsF g rest fds := by
  rw [denormRelsF, hv]
  cases v with
  | varr l => simp [Value.isArr] at hna
  | vnull => rfl
  | vstr s => rfl
  | vint n => rfl
  | vbool b => rfl
  | vobj o => rfl

theorem denormRelsF_cons_single_null (g) (k1 tyt : String)
    (rest : List (String × Rel)) (fds : Entity) (hv : assocGet k1 fds = some .vnull) :
    denormRelsF g ((k1, ⟨tyt, false⟩) :: rest) fds = denormRelsF g rest fds := by
  rw [denormRelsF, hv]
  rfl

theorem denormRelsF_cons_single (g) (k1 tyt : String)
    (rest : List (String × Rel)) (fds : Entity) (v : Value)
    (hv : assocGet k1 fds = some v) (hnn : v.isNullV = false) :
    denormRelsF g ((k1, ⟨tyt, false⟩) :: rest) fds =
      g v tyt >>= fun r => denormRelsF g rest
        (assocSet k1 (match r with | some ent => Value.vobj ent | none => Value.vnull) fds) := by
  rw [denormRelsF, hv]
  cases v with
  | vnull => simp [Value.isNullV] at hnn
  | varr l => rfl
  | vstr s => rfl
  | vint n => rfl
  | vbool b => rfl
  | vobj o => rfl

theorem denormalizeSingle_nocoll (smap : SchemaMap) (entities : Entities) (fuel : Nat)
    (idv : Value) (ty : String) (hc : assocGet ty entities = none) :
    denormalizeSingle smap entities (fuel + 1) idv ty = .ok none := by
  rw [denormalizeSingle, hc]

theorem denormalizeSingle_noent (smap : SchemaMap) (entities : Entities) (fuel : Nat)
    (idv : Value) (ty : String) (coll : EntityMap)
    (hc : assocGet ty entities = some coll) (he : assocGet (idToKey idv) coll = none) :
    denormalizeSingle smap entities (fuel + 1) idv ty = .ok none := by
  simp only [denormalizeSingle, hc, he]

theorem denormalizeSingle_found (smap : SchemaMap) (entities : Entities) (fuel : Nat)
    (idv : Value) (ty : String) (coll : EntityMap) (ent : Entity) (schema : EntitySchema)
    (hc : assocGet ty entities = some coll) (he : assocGet (idToKey idv) coll = some ent)
    (hs : assocGet ty smap = some schema) :
    denormalizeSingle smap entities (fuel + 1) idv ty =
      denormRelsF (denormalizeSingle smap entities fuel) (relsOf schema) ent >>=
        fun fds => .ok (some fds) := by
  simp only [denormalizeSingle, hc, he, hs]

/-- Keys not named by any processed relationship keep their value through the
relationship loop. -/
theorem processRelsF_frame (smap : SchemaMap)
    (f : Value → String → Option EntitySchema → Entities → Except JsErr (Value × Entities))
    (k : String) :
    ∀ (rels : List (String × Rel)) (fds : List (String × Value)) (st : Entities)
      (fds' : List (String × Value)) (st1 : Entities),
      processRelsF smap f rels fds st = .ok (fds', st1) →
      (∀ r ∈ rels, r.1 ≠ k) →
      assocGet k fds' = assocGet k fds := by
  intro rels
  induction rels with
  | nil =>
    intro fds st fds' st1 h _
    simp only [processRelsF, Except.ok.injEq, Prod.mk.injEq] at h
    rw [h.1]
  | cons kr rest ih =>
    intro fds st fds' st1 h hk
    obtain ⟨k1, rel⟩ := kr
    obtain ⟨tyt, barr⟩ := rel
    have hk1 : k1 ≠ k := hk (k1, ⟨tyt, barr⟩) (List.mem_cons_self _ _)
    have hkrest : ∀ r ∈ rest, r.1 ≠ k := fun r hr => hk r (List.mem_cons_of_mem _ hr)
    cases hv : assocGet k1 fds with
    | none =>
      rw [processRelsF_cons_absent smap f k1 ⟨tyt, barr⟩ rest fds st hv] at h
      exact ih _ _ _ _ h hkrest
    | some v =>
      cases barr with
      | true =>
        cases harr : v.isArr with
        | false =>
          rw [processRelsF_cons_plural_nonarr smap f k1 tyt rest fds st v hv harr] at h
          exact ih _ _ _ _ h hkrest
        | true =>
          obtain ⟨items, rfl⟩ : ∃ l, v = .varr l := by
            cases v <;> simp [Value.isArr] at harr <;> exact ⟨_, rfl⟩
          rw [processRelsF_cons_plural smap f k1 tyt rest fds st items hv] at h
          cases hit : processItemsF (fun it s => f it tyt (assocGet tyt smap) s) items st with
          | error er => rw [hit] at h; simp at h
          | ok p =>
            rw [hit] at h
            simp only [except_ok_bind] at h
            rw [ih _ _ _ _ h hkrest, assocGet_assocSet_ne (Ne.symm hk1)]
      | false =>
        cases hnv : v.isNullV with
        | true =>
          have hveq : v = .vnull := by cases v <;> simp [Value.isNullV] at hnv <;> rfl
          subst hveq
          rw [processRelsF_cons_single_null smap f k1 tyt rest fds st hv] at h
          exact ih _ _ _ _ h hkrest
        | false =>
          rw [processRelsF_cons_single smap f k1 tyt rest fds st v hv hnv] at h
          cases hfv : f v tyt (assocGet tyt smap) st with
          | error er => rw [hfv] at h; simp at h
          | ok p =>
            rw [hfv] at h
            simp only [except_ok_bind] at h
            rw [ih _ _ _ _ h hkrest, assocGet_assocSet_ne (Ne.symm hk1)]

/-- A plural relationship field whose input value is an array ends up holding
exactly the ids produced by processing its elements in order. -/
theorem processRelsF_plural_field (smap : SchemaMap)
    (f : Value → String → Option EntitySchema → Entities → Except JsErr (Value × Entities))
    (k tyt : String) :
    ∀ (rels : List (String × Rel)) (fds : List (String × Value)) (st : Entities)
      (fds' : List (String × Value)) (st1 : Entities) (items : List Value),
      processRelsF smap f rels fds st = .ok (fds', st1) →
      (rels.map Prod.fst).Nodup →
      (k, ⟨tyt, true⟩) ∈ rels →
      assocGet k fds = some (.varr items) →
      ∃ (ids : List Value) (st0 st2 : Entities),
        processItemsF (fun it s => f it tyt (assocGet tyt smap) s) items st0 = .ok (ids, st2) ∧
        assocGet k fds' = some (.varr ids) := by
  intro rels
  induction rels with
  | nil =>
    intro fds st fds' st1 items _ _ hmem _
    exact absurd hmem (List.not_mem_nil _)
  | cons kr rest ih =>
    intro fds st fds' st1 items h hnd hmem hget
    obtain ⟨k1, rel⟩ := kr
    rw [List.map_cons, List.nodup_cons] at hnd
    rcases List.mem_cons.mp hmem with heq | hmemrest
    · have hkk : k1 = k := (congrArg Prod.fst heq).symm
      have hrel : rel = ⟨tyt, true⟩ := (congrArg Prod.snd heq).symm
      subst hkk
      subst hrel
      rw [processRelsF_cons_plural smap f k1 tyt rest fds st items hget] at h
      cases hit : processItemsF (fun it s => f it tyt (assocGet tyt smap) s) items st with
      | error er => rw [hit] at h; simp at h
      | ok p =>
        rw [hit] at h
        simp only [except_ok_bind] at h
        have hnotin : ∀ r ∈ rest, r.1 ≠ k1 := by
          intro r hr hcon
          subst hcon
          exact hnd.1 (List.mem_map.mpr ⟨r, hr, rfl⟩)
        have hframe := processRelsF_frame smap f k1 rest _ _ _ _ h hnotin
        refine ⟨p.1, st, p.2, by rw [hit], ?_⟩
        rw [hframe, assocGet_assocSet_self]
    · have hkne : k1 ≠ k := by
        intro hcon
        subst hcon
        exact hnd.1 (List.mem_map.mpr ⟨_, hmemrest, rfl⟩)
      cases hv : assocGet k1 fds with
      | none =>
        rw [processRelsF_cons_absent smap f k1 rel rest fds st hv] at h
        exact ih fds st fds' st1 items h hnd.2 hmemrest hget
      | some v =>
        obtain ⟨t1, b1⟩ := rel
        cases b1 with
        | true =>
          cases harr : v.isArr with
          | false =>
            rw [processRelsF_cons_plural_nonarr smap f k1 t1 rest fds st v hv harr] at h
            exact ih fds st fds' st1 items h hnd.2 hmemrest hget
          | true =>
            obtain ⟨its, rfl⟩ : ∃ l, v = .varr l := by
              cases v <;> simp [Value.isArr] at harr <;> exact ⟨_, rfl⟩
            rw [processRelsF_cons_plural smap f k1 t1 rest fds st its hv] at h
            cases hit : processItemsF (fun it s => f it t1 (assocGet t1 smap) s) its st with
            | error er => rw [hit] at h; simp at h
            | ok p =>
              rw [hit] at h
              simp only [except_ok_bind] at h
              have hget2 : assocGet k (assocSet k1 (Value.varr p.1) fds) =
                  some (.varr items) := by
                rw [assocGet_assocSet_ne (Ne.symm hkne)]
                exact hget
              exact ih _ _ _ _ items h hnd.2 hmemrest hget2
        | false =>
          cases hnv : v.isNullV with
          | true =>
            have hveq : v = .vnull := by
              cases v <;> simp [Value.isNullV] at hnv <;> rfl
            subst hveq
            rw [processRelsF_cons_single_null smap f k1 t1 rest fds st hv] at h
            exact ih fds st fds' st1 items h hnd.2 hmemrest hget
          | false =>
            rw [processRelsF_cons_single smap f k1 t1 rest fds st v hv hnv] at h
            cases hfv : f v t1 (assocGet t1 smap) st with
            | error er => rw [hfv] at h; simp at h
            | ok p =>
              rw [hfv] at h
              simp only [except_ok_bind] at h
              have hget2 : assocGet k (assocSet k1 p.1 fds) = some (.varr items) := by
                rw [assocGet_assocSet_ne (Ne.symm hkne)]
                exact hget
              exact ih _ _ _ _ items h hnd.2 hmemrest hget2

/-- C7: normalization preserves order.  For an array input the `result` of a
successful call is the sequence of the top-level entities' identifier values
in input order; and a plural relationship field holding an array ends up, in
the stored entity record, as the sequence of the nested entities' identifier
values in input order. -/
theorem normalize_order_spec :
    (∀ (fuel : Nat) (items : List Value) (ty : String) (smap : SchemaMap)
       (schema : EntitySchema) (nd : NormalizedData),
      assocGet ty smap = some schema →
      normalize fuel (.varr items) ty smap = .ok nd →
      ∃ ids, nd.result = .many ids ∧
        List.Forall₂ (fun it idv => fieldGet it (schemaIdKey schema) = .ok (some idv)) items ids) ∧
    (∀ (smap : SchemaMap) (fuel : Nat) (e : Value) (ty : String) (schema : EntitySchema)
       (st : Entities) (idv : Value) (st' : Entities) (k tyt : String) (items : List Value),
      processEntity smap (fuel + 1) e ty (some schema) st = .ok (idv, st') →
      ((relsOf schema).map Prod.fst).Nodup →
      (k, hasMany tyt) ∈ relsOf schema →
      assocGet k (fieldsOf e) = some (.varr items) →
      ∃ fds ids, (assocGet ty st').bind (assocGet (idToKey idv)) = some fds ∧
        assocGet k fds = some (.varr ids) ∧
        List.Forall₂ (fun it idv2 => ∃ s2, assocGet tyt smap = some s2 ∧
          fieldGet it (schemaIdKey s2) = .ok (some idv2)) items ids) := by
  constructor
  · intro fuel items ty smap schema nd hs hn
    rw [normalize_arr fuel items ty smap schema hs] at hn
    cases hp : processItemsF (fun it s => processEntity smap fuel it ty (some schema) s)
        items [] with
    | error er => rw [hp] at hn; simp at hn
    | ok p =>
      rw [hp] at hn
      simp only [except_ok_bind, Except.ok.injEq] at hn
      refine ⟨p.1, by rw [← hn], ?_⟩
      refine processItemsF_forall _ _ ?_ items [] p.1 p.2 (by rw [hp])
      intro it st2 idv st2' hok
      obtain ⟨s2, hs2, hid⟩ :=
        processEntity_ok_id smap fuel it ty (some schema) st2 idv st2' hok
      cases hs2
      exact hid
  · intro smap fuel e ty schema st idv st' k tyt items h hnd hmem hget
    obtain ⟨s2, hs2, hid⟩ :=
      processEntity_ok_id smap (fuel + 1) e ty (some schema) st idv st' h
    cases hs2
    rw [processEntity_succ smap fuel e ty schema st idv hid] at h
    cases hr : processRelsF smap (processEntity smap fuel) (relsOf schema) (fieldsOf e)
        (ensureColl st ty) with
    | error er => rw [hr] at h; simp at h
    | ok p =>
      rw [hr] at h
      simp only [except_ok_bind, Except.ok.injEq, Prod.mk.injEq] at h
      obtain ⟨fds1, st1⟩ := p
      obtain ⟨ids, st0, st2, hitems, hkf⟩ :=
        processRelsF_plural_field smap (processEntity smap fuel) k tyt (relsOf schema)
          (fieldsOf e) (ensureColl st ty) fds1 st1 items hr hnd hmem hget
      refine ⟨fds1, ids, ?_, hkf, ?_⟩
      · rw [← h.2]
        simp [insertEnt]
      · refine processItemsF_forall _ _ ?_ items st0 ids st2 hitems
        intro it st3 idv2 st3' hok
        exact processEntity_ok_id smap fuel it tyt (assocGet tyt smap) st3 idv2 st3' hok

/-- C7 witness: the two parts at small concrete inputs — two top-level
entities keep their order in `result`, and a plural `kids` relationship stores
the two child ids in input order. -/
theorem normalize_order_witness :
    (∃ ids, (NormalizedData.mk [("t", [("x", [("id", .vstr "x")]), ("y", [("id", .vstr "y")])])]
        (.many [.vstr "x", .vstr "y"])).result = .many ids ∧
      List.Forall₂ (fun it idv =>
          fieldGet it (schemaIdKey (createEntitySchema "id" [])) = .ok (some idv))
        [.vobj [("id", .vstr "x")], .vobj [("id", .vstr "y")]] ids) ∧
    (∃ fds ids,
      (assocGet "t" [("t", [("p", [("id", Value.vstr "p"),
          ("kids", Value.varr [Value.vstr "a", Value.vstr "b"])])]),
        ("u", [("a", [("id", Value.vstr "a")]), ("b", [("id", Value.vstr "b")])])]).bind
        (assocGet (idToKey (.vstr "p"))) = some fds ∧
      assocGet "kids" fds = some (.varr ids) ∧
      List.Forall₂ (fun it idv2 => ∃ s2,
          assocGet "u" [("t", createEntitySchema "id" [("kids", hasMany "u")]),
            ("u", createEntitySchema "id" [])] = some s2 ∧
          fieldGet it (schemaIdKey s2) = .ok (some idv2))
        [.vobj [("id", .vstr "a")], .vobj [("id", .vstr "b")]] ids) :=
  ⟨normalize_order_spec.1 1 [.vobj [("id", .vstr "x")], .vobj [("id", .vstr "y")]] "t"
      [("t", createEntitySchema "id" [])] (createEntitySchema "id" [])
      ⟨[("t", [("x", [("id", .vstr "x")]), ("y", [("id", .vstr "y")])])],
       .many [.vstr "x", .vstr "y"]⟩ rfl rfl,
   normalize_order_spec.2
      [("t", createEntitySchema "id" [("kids", hasMany "u")]), ("u", createEntitySchema "id" [])]
      1 (.vobj [("id", .vstr "p"),
          ("kids", .varr [.vobj [("id", .vstr "a")], .vobj [("id", .vstr "b")]])])
      "t" (createEntitySchema "id" [("kids", hasMany "u")]) []
      (.vstr "p")
      [("t", [("p", [("id", Value.vstr "p"),
          ("kids", Value.varr [Value.vstr "a", Value.vstr "b"])])]),
       ("u", [("a", [("id", Value.vstr "a")]), ("b", [("id", Value.vstr "b")])])]
      "kids" "u" [.vobj [("id", .vstr "a")], .vobj [("id", .vstr "b")]]
      rfl (by decide) (List.Mem.head _) rfl⟩

/-! Claim C6: a missing identifier on any visited entity makes the call fail
with the MissingIdentifier error. -/

theorem assocGet_mem {l : List (String × α)} (h : assocGet k l = some v) : (k, v) ∈ l := by
  induction l with
  | nil => simp [assocGet] at h
  | cons p r ih =>
    obtain ⟨k1, v1⟩ := p
    rw [assocGet] at h
    by_cases hk : k1 = k
    · rw [if_pos hk] at h
      obtain rfl := Option.some.inj h
      subst hk
      exact List.mem_cons_self _ _
    · rw [if_neg hk] at h
      exact List.mem_cons_of_mem _ (ih h)

theorem sizeOf_assocGet {l : List (String × Value)} (h : assocGet k l = some v) :
    sizeOf v < sizeOf l := by
  have h1 := List.sizeOf_lt_of_mem (assocGet_mem h)
  simp only [Prod.mk.sizeOf_spec] at h1
  omega

theorem sizeOf_fieldGet {e : Value} (h : fieldGet e k = .ok (some v)) :
    sizeOf v < sizeOf e := by
  cases e with
  | vobj fds =>
    simp only [fieldGet, Except.ok.injEq] at h
    have h1 := sizeOf_assocGet h
    have h2 : sizeOf (Value.vobj fds) = 1 + sizeOf fds := by simp
    omega
  | vnull => simp [fieldGet] at h
  | vstr s => simp [fieldGet] at h
  | vint n => simp [fieldGet] at h
  | vbool b => simp [fieldGet] at h
  | varr l => simp [fieldGet] at h

theorem relVisit_absent (r : Value → String → Bool) (fds0 : List (String × Value))
    (k1 : String) (rel : Rel) (hv0 : assocGet k1 fds0 = none) :
    relVisit r fds0 (k1, rel) = false := by
  simp only [relVisit, hv0]

theorem relVisit_plural (r : Value → String → Bool) (fds0 : List (String × Value))
    (k1 t1 : String) (items : List Value)
    (hv0 : assocGet k1 fds0 = some (.varr items)) :
    relVisit r fds0 (k1, ⟨t1, true⟩) = items.any (fun it => r it t1) := by
  simp only [relVisit, hv0]
  rfl

theorem relVisit_plural_nonarr (r : Value → String → Bool) (fds0 : List (String × Value))
    (k1 t1 : String) (v : Value) (hv0 : assocGet k1 fds0 = some v) (hna : v.isArr = false) :
    relVisit r fds0 (k1, ⟨t1, true⟩) = false := by
  simp only [relVisit, hv0]
  cases v with
  | varr l => simp [Value.isArr] at hna
  | vnull => rfl
  | vstr s => rfl
  | vint n => rfl
  | vbool b => rfl
  | vobj o => rfl

theorem relVisit_null (r : Value → String → Bool) (fds0 : List (String × Value))
    (k1 t1 : String) (hv0 : assocGet k1 fds0 = some .vnull) :
    relVisit r fds0 (k1, ⟨t1, false⟩) = false := by
  simp only [relVisit, hv0]
  rfl

theorem relVisit_single (r : Value → String → Bool) (fds0 : List (String × Value))
    (k1 t1 : String) (v : Value) (hv0 : assocGet k1 fds0 = some v) (hnv : v.isNullV = false) :
    relVisit r fds0 (k1, ⟨t1, false⟩) = r v t1 := by
  simp only [relVisit, hv0]
  cases v with
  | vnull => simp [Value.isNullV] at hnv
  | varr l => rfl
  | vstr s => rfl
  | vint n => rfl
  | vbool b => rfl
  | vobj o => rfl

theorem processItemsF_missing_dichotomy (smap : SchemaMap) (fuel : Nat) (tyt : String)
    (s2 : EntitySchema)
    (IH : ∀ (e : Value) (ty : String) (s : EntitySchema) (st : Entities),
      assocGet ty smap = some s → sizeOf e < fuel →
      anyNullEnt smap fuel e ty = false →
      (∃ idv st', processEntity smap fuel e ty (some s) st = .ok (idv, st') ∧
        anyMissingId smap fuel e ty = false) ∨
      (∃ ik t, processEntity smap fuel e ty (some s) st = .error (.missingId ik t) ∧
        anyMissingId smap fuel e ty = true))
    (hs2 : assocGet tyt smap = some s2) :
    ∀ (items : List Value) (st : Entities), (∀ it ∈ items, sizeOf it < fuel) →
      items.any (fun it => anyNullEnt smap fuel it tyt) = false →
      (∃ ids st', processItemsF (fun it s3 => processEntity smap fuel it tyt (some s2) s3)
          items st = .ok (ids, st') ∧
        items.any (fun it => anyMissingId smap fuel it tyt) = false) ∨
      (∃ ik t, processItemsF (fun it s3 => processEntity smap fuel it tyt (some s2) s3)
          items st = .error (.missingId ik t) ∧
        items.any (fun it => anyMissingId smap fuel it tyt) = true) := by
  intro items
  induction items with
  | nil =>
    intro st _ _
    left
    exact ⟨[], st, rfl, rfl⟩
  | cons it rest ih =>
    intro st hsz hnl
    rw [List.any_cons, Bool.or_eq_false_iff] at hnl
    rcases IH it tyt s2 st hs2 (hsz it (List.mem_cons_self _ _)) hnl.1 with
      ⟨idv, st1, hok, hmf⟩ | ⟨ik, t, herr, hmt⟩
    · rcases ih st1 (fun x hx => hsz x (List.mem_cons_of_mem _ hx)) hnl.2 with
        ⟨ids, st2, hok2, hf2⟩ | ⟨ik, t, herr2, ht2⟩
      · left
        refine ⟨idv :: ids, st2, ?_, ?_⟩
        · simp only [processItemsF_cons, hok, except_ok_bind, hok2]
        · simp [List.any_cons, hmf, hf2]
      · right
        refine ⟨ik, t, ?_, ?_⟩
        · simp only [processItemsF_cons, hok, except_ok_bind, herr2, except_error_bind]
        · simp [List.any_cons, ht2]
    · right
      refine ⟨ik, t, ?_, ?_⟩
      · simp only [processItemsF_cons, herr, except_error_bind]
      · simp [List.any_cons, hmt]

theorem processRelsF_missing_dichotomy (smap : SchemaMap) (fuel : Nat)
    (fds0 : List (String × Value))
    (IH : ∀ (e : Value) (ty : String) (s : EntitySchema) (st : Entities),
      assocGet ty smap = some s → sizeOf e < fuel →
      anyNullEnt smap fuel e ty = false →
      (∃ idv st', processEntity smap fuel e ty (some s) st = .ok (idv, st') ∧
        anyMissingId smap fuel e ty = false) ∨
      (∃ ik t, processEntity smap fuel e ty (some s) st = .error (.missingId ik t) ∧
        anyMissingId smap fuel e ty = true)) :
    ∀ (rels : List (String × Rel)) (fds : List (String × Value)) (st : Entities),
      (∀ kr ∈ rels, (assocGet kr.2.type smap).isSome = true) →
      (rels.map Prod.fst).Nodup →
      (∀ kr ∈ rels, assocGet kr.1 fds = assocGet kr.1 fds0) →
      (∀ kr ∈ rels, ∀ v, assocGet kr.1 fds0 = some v → sizeOf v < fuel) →
      rels.any (relVisit (anyNullEnt smap fuel) fds0) = false →
      (∃ fds' st', processRelsF smap (processEntity smap fuel) rels fds st = .ok (fds', st') ∧
        rels.any (relVisit (anyMissingId smap fuel) fds0) = false) ∨
      (∃ ik t, processRelsF smap (processEntity smap fuel) rels fds st =
          .error (.missingId ik t) ∧
        rels.any (relVisit (anyMissingId smap fuel) fds0) = true) := by
  intro rels
  induction rels with
  | nil =>
    intro fds st _ _ _ _ _
    left
    exact ⟨fds, st, rfl, rfl⟩
  | cons kr rest ihr =>
    intro fds st hcl hnd hread hsz hnl
    obtain ⟨k1, rel⟩ := kr
    rw [List.any_cons, Bool.or_eq_false_iff] at hnl
    rw [List.map_cons, List.nodup_cons] at hnd
    have hread1 : assocGet k1 fds = assocGet k1 fds0 :=
      hread (k1, rel) (List.mem_cons_self _ _)
    have hclrest : ∀ kr2 ∈ rest, (assocGet kr2.2.type smap).isSome = true :=
      fun kr2 h2 => hcl kr2 (List.mem_cons_of_mem _ h2)
    have hreadrest : ∀ kr2 ∈ rest, assocGet kr2.1 fds = assocGet kr2.1 fds0 :=
      fun kr2 h2 => hread kr2 (List.mem_cons_of_mem _ h2)
    have hszrest : ∀ kr2 ∈ rest, ∀ v, assocGet kr2.1 fds0 = some v → sizeOf v < fuel :=
      fun kr2 h2 => hsz kr2 (List.mem_cons_of_mem _ h2)
    have hpres : ∀ (w : Value), ∀ kr2 ∈ rest,
        assocGet kr2.1 (assocSet k1 w fds) = assocGet kr2.1 fds0 := by
      intro w kr2 h2
      have hne : kr2.1 ≠ k1 := by
        intro hcon
        exact hnd.1 (hcon ▸ List.mem_map.mpr ⟨kr2, h2, rfl⟩)
      rw [assocGet_assocSet_ne hne, hreadrest kr2 h2]
    cases hv0 : assocGet k1 fds0 with
    | none =>
      have hv : assocGet k1 fds = none := by rw [hread1, hv0]
      rw [processRelsF_cons_absent smap (processEntity smap fuel) k1 rel rest fds st hv]
      rcases ihr fds st hclrest hnd.2 hreadrest hszrest hnl.2 with
        ⟨fds', st', hok, hf⟩ | ⟨ik, t, herr, ht⟩
      · exact Or.inl ⟨fds', st', hok,
          by simp [List.any_cons, relVisit_absent _ _ _ _ hv0, hf]⟩
      · exact Or.inr ⟨ik, t, herr,
          by simp [List.any_cons, relVisit_absent _ _ _ _ hv0, ht]⟩
    | some v =>
      have hv : assocGet k1 fds = some v := by rw [hread1, hv0]
      have hszv : sizeOf v < fuel := hsz (k1, rel) (List.mem_cons_self _ _) v hv0
      obtain ⟨t1, b1⟩ := rel
      cases b1 with
      | true =>
        cases harr : v.isArr with
        | false =>
          rw [processRelsF_cons_plural_nonarr smap (processEntity smap fuel) k1 t1 rest
            fds st v hv harr]
          rcases ihr fds st hclrest hnd.2 hreadrest hszrest hnl.2 with
            ⟨fds', st', hok, hf⟩ | ⟨ik, t, herr, ht⟩
          · exact Or.inl ⟨fds', st', hok,
              by simp [List.any_cons, relVisit_plural_nonarr _ _ _ _ _ hv0 harr, hf]⟩
          · exact Or.inr ⟨ik, t, herr,
              by simp [List.any_cons, relVisit_plural_nonarr _ _ _ _ _ hv0 harr, ht]⟩
        | true =>
          obtain ⟨items, rfl⟩ : ∃ l, v = .varr l := by
            cases v <;> simp [Value.isArr] at harr <;> exact ⟨_, rfl⟩
          obtain ⟨s2, hs2⟩ := Option.isSome_iff_exists.mp
            (hcl (k1, ⟨t1, true⟩) (List.mem_cons_self _ _))
          rw [processRelsF_cons_plural smap (processEntity smap fuel) k1 t1 rest fds st
            items hv]
          simp only [hs2]
          have hszit : ∀ it ∈ items, sizeOf it < fuel := by
            intro it hit
            have h1 := List.sizeOf_lt_of_mem hit
            have h2 : sizeOf (Value.varr items) = 1 + sizeOf items := by simp
            omega
          rcases processItemsF_missing_dichotomy smap fuel t1 s2 IH hs2 items st hszit
              (by rw [relVisit_plural _ _ _ _ _ hv0] at hnl; exact hnl.1) with
            ⟨ids, st1, hokI, hfI⟩ | ⟨ik, t, herrI, htI⟩
          · rw [hokI]
            simp only [except_ok_bind]
            rcases ihr (assocSet k1 (.varr ids) fds) st1 hclrest hnd.2 (hpres _) hszrest hnl.2 with
              ⟨fds', st', hok, hf⟩ | ⟨ik, t, herr, ht⟩
            · exact Or.inl ⟨fds', st', hok,
                by simp [List.any_cons, relVisit_plural _ _ _ _ _ hv0, hfI, hf]⟩
            · exact Or.inr ⟨ik, t, herr,
                by simp [List.any_cons, ht]⟩
          · rw [herrI]
            simp only [except_error_bind]
            exact Or.inr ⟨ik, t, rfl,
              by simp [List.any_cons, relVisit_plural _ _ _ _ _ hv0, htI]⟩
      | false =>
        cases hnv : v.isNullV with
        | true =>
          have hveq : v = .vnull := by
            cases v <;> simp [Value.isNullV] at hnv <;> rfl
          subst hveq
          rw [processRelsF_cons_single_null smap (processEntity smap fuel) k1 t1 rest
            fds st hv]
          rcases ihr fds st hclrest hnd.2 hreadrest hszrest hnl.2 with
            ⟨fds', st', hok, hf⟩ | ⟨ik, t, herr, ht⟩
          · exact Or.inl ⟨fds', st', hok,
              by simp [List.any_cons, relVisit_null _ _ _ _ hv0, hf]⟩
          · exact Or.inr ⟨ik, t, herr,
              by simp [List.any_cons, relVisit_null _ _ _ _ hv0, ht]⟩
        | false =>
          obtain ⟨s2, hs2⟩ := Option.isSome_iff_exists.mp
            (hcl (k1, ⟨t1, false⟩) (List.mem_cons_self _ _))
          rw [processRelsF_cons_single smap (processEntity smap fuel) k1 t1 rest fds st
            v hv hnv]
          simp only [hs2]
          rcases IH v t1 s2 st hs2 hszv
              (by rw [relVisit_single _ _ _ _ _ hv0 hnv] at hnl; exact hnl.1) with ⟨idv, st1, hokE, hfE⟩ | ⟨ik, t, herrE, htE⟩
          · rw [hokE]
            simp only [except_ok_bind]
            rcases ihr (assocSet k1 idv fds) st1 hclrest hnd.2 (hpres _) hszrest hnl.2 with
              ⟨fds', st', hok, hf⟩ | ⟨ik, t, herr, ht⟩
            · exact Or.inl ⟨fds', st', hok,
                by simp [List.any_cons, relVisit_single _ _ _ _ _ hv0 hnv, hfE, hf]⟩
            · exact Or.inr ⟨ik, t, herr,
                by simp [List.any_cons, ht]⟩
          · rw [herrE]
            simp only [except_error_bind]
            exact Or.inr ⟨ik, t, rfl,
              by simp [List.any_cons, relVisit_single _ _ _ _ _ hv0 hnv, htE]⟩

theorem processEntity_missing_dichotomy (smap : SchemaMap) (hwf : SchemaWF smap) :
    ∀ (fuel : Nat) (e : Value) (ty : String) (s : EntitySchema) (st : Entities),
      assocGet ty smap = some s → sizeOf e < fuel →
      anyNullEnt smap fuel e ty = false →
      (∃ idv st', processEntity smap fuel e ty (some s) st = .ok (idv, st') ∧
        anyMissingId smap fuel e ty = false) ∨
      (∃ ik t, processEntity smap fuel e ty (some s) st = .error (.missingId ik t) ∧
        anyMissingId smap fuel e ty = true) := by
  intro fuel
  induction fuel with
  | zero =>
    intro e ty s st _ hsz _
    omega
  | succ fuel ihf =>
    intro e ty s st hs hsz hnl
    cases hid : fieldGet e (schemaIdKey s) with
    | error er =>
      exfalso
      obtain rfl := fieldGet_error_elim hid
      simp [anyNullEnt, Value.isNullV] at hnl
    | ok oid =>
      cases oid with
      | none =>
        right
        refine ⟨schemaIdKey s, ty, processEntity_noid smap fuel e ty s st hid, ?_⟩
        simp only [anyMissingId, hs, hid]
      | some idv =>
        have hnn : e.isNullV = false := fieldGet_ok_notnull hid
        have hanyu : anyMissingId smap (fuel + 1) e ty =
            (relsOf s).any (relVisit (anyMissingId smap fuel) (fieldsOf e)) := by
          simp only [anyMissingId, hs, hid]
        have hnlu : (relsOf s).any (relVisit (anyNullEnt smap fuel) (fieldsOf e)) = false := by
          simp only [anyNullEnt, hs, hid, hnn, Bool.false_or] at hnl
          exact hnl
        rw [processEntity_succ smap fuel e ty s st idv hid]
        obtain ⟨hnd, hcl⟩ := hwf (ty, s) (assocGet_mem hs)
        have hszv : ∀ kr ∈ relsOf s, ∀ v, assocGet kr.1 (fieldsOf e) = some v →
            sizeOf v < fuel := by
          intro kr _ v hv
          have h1 := sizeOf_assocGet hv
          have h2 : sizeOf (fieldsOf e) < sizeOf e := by
            cases e with
            | vobj fds =>
              have : sizeOf (Value.vobj fds) = 1 + sizeOf fds := by simp
              simp only [fieldsOf]
              omega
            | vnull => simp [fieldGet] at hid
            | vstr s3 => simp [fieldGet] at hid
            | vint n => simp [fieldGet] at hid
            | vbool b => simp [fieldGet] at hid
            | varr l => simp [fieldGet] at hid
          omega
        rcases processRelsF_missing_dichotomy smap fuel (fieldsOf e) ihf (relsOf s)
            (fieldsOf e) (ensureColl st ty) hcl hnd (fun _ _ => rfl) hszv hnlu with
          ⟨fds', st', hokR, hfR⟩ | ⟨ik, t, herrR, htR⟩
        · left
          refine ⟨idv, insertEnt st' ty (idToKey idv) fds', ?_, ?_⟩
          · rw [hokR]
            rfl
          · rw [hanyu]
            exact hfR
        · right
          refine ⟨ik, t, ?_, ?_⟩
          · rw [herrR]
            rfl
          · rw [hanyu]
            exact htR

theorem normalize_single_truthy (fuel : Nat) (input : Value) (ty : String)
    (smap : SchemaMap) (schema : EntitySchema) (h : assocGet ty smap = some schema)
    (hna : input.isArr = false) (ht : truthy input = true) :
    normalize fuel input ty smap =
      processEntity smap fuel input ty (some schema) [] >>= fun p =>
        .ok ⟨p.2, .one p.1⟩ := by
  unfold normalize
  rw [h]
  cases input with
  | varr l => simp [Value.isArr] at hna
  | vnull => simp [truthy] at ht
  | vstr s =>
    simp only [ht]
    rfl
  | vint n =>
    simp only [ht]
    rfl
  | vbool b =>
    simp only [ht]
    rfl
  | vobj o =>
    simp only [ht]
    rfl

/-- C6 counterexample: a `null` element of a plural relationship field is
visited by the traversal and certainly carries no value at its identifier
key, yet the call fails with the `TypeError` thrown by the identifier read
`entity[idKey]` on `null` — not with the MissingIdentifier error the claim
names for every visited entity lacking its identifier. -/
theorem missing_id_counterexample :
    normalize 3 (.varr [.vobj [("id", .vstr "p"), ("comments", .varr [.vnull])]]) "posts"
      [("posts", createEntitySchema "id" [("comments", hasMany "comments")]),
       ("comments", createEntitySchema "id" [])] = .error (.typeError "id") ∧
    ∀ ik t, normalize 3
        (.varr [.vobj [("id", .vstr "p"), ("comments", .varr [.vnull])]]) "posts"
        [("posts", createEntitySchema "id" [("comments", hasMany "comments")]),
         ("comments", createEntitySchema "id" [])] ≠ .error (.missingId ik t) := by
  refine ⟨rfl, fun ik t h => ?_⟩
  have h2 : (Except.error (JsErr.typeError "id") : Except JsErr NormalizedData) =
      .error (.missingId ik t) := h
  exact JsErr.noConfusion (Except.error.inj h2)

/-- C6 (amended): the identifier check — a visited entity (a `processEntity`
call reached with its schema) whose identifier read yields `undefined` makes
that call throw the MissingIdentifier error, which the `Except` embedding
propagates to the caller unrecovered; a visited `null` entity instead makes
the identifier read itself throw a `TypeError`; and globally, over a
well-formed schema map (unique relationship keys, all target types declared),
whenever the traversal of a `normalize` input visits no `null` entity but
reaches an entity lacking its identifier, the whole call fails with a
MissingIdentifier error. -/
theorem normalize_missing_id_spec :
    (∀ (smap : SchemaMap) (fuel : Nat) (e : Value) (ty : String) (s : EntitySchema)
       (st : Entities),
      fieldGet e (schemaIdKey s) = .ok none →
      processEntity smap (fuel + 1) e ty (some s) st =
        .error (.missingId (schemaIdKey s) ty)) ∧
    (∀ (smap : SchemaMap) (fuel : Nat) (ty : String) (s : EntitySchema) (st : Entities),
      processEntity smap (fuel + 1) .vnull ty (some s) st =
        .error (.typeError (schemaIdKey s))) ∧
    (∀ (smap : SchemaMap) (fuel : Nat) (input : Value) (ty : String) (s : EntitySchema),
      SchemaWF smap → assocGet ty smap = some s → sizeOf input < fuel →
      anyNullInput smap fuel input ty = false →
      anyMissingInput smap fuel input ty = true →
      ∃ ik t, normalize fuel input ty smap = .error (.missingId ik t)) := by
  refine ⟨?_, ?_, ?_⟩
  · intro smap fuel e ty s st hid
    exact processEntity_noid smap fuel e ty s st hid
  · intro smap fuel ty s st
    rfl
  · intro smap fuel input ty s hwf hs hsz hnull hany
    have hdich := processEntity_missing_dichotomy smap hwf fuel
    cases input with
    | varr items =>
      simp only [anyMissingInput] at hany
      simp only [anyNullInput] at hnull
      have hszit : ∀ it ∈ items, sizeOf it < fuel := by
        intro it hit
        have h1 := List.sizeOf_lt_of_mem hit
        have h2 : sizeOf (Value.varr items) = 1 + sizeOf items := by simp
        omega
      rcases processItemsF_missing_dichotomy smap fuel ty s hdich hs items [] hszit
          hnull with ⟨ids, st', hok, hf⟩ | ⟨ik, t, herr, _⟩
      · rw [hany] at hf
        exact absurd hf (by simp)
      · refine ⟨ik, t, ?_⟩
        rw [normalize_arr fuel items ty smap s hs, herr]
        rfl
    | vnull =>
      simp [anyMissingInput, truthy] at hany
    | vstr s2 =>
      simp only [anyMissingInput, Bool.and_eq_true] at hany
      simp only [anyNullInput, hany.1, Bool.true_and] at hnull
      rcases hdich (.vstr s2) ty s [] hs hsz hnull with
        ⟨idv, st', hok, hf⟩ | ⟨ik, t, herr, _⟩
      · rw [hany.2] at hf
        exact absurd hf (by simp)
      · refine ⟨ik, t, ?_⟩
        rw [normalize_single_truthy fuel (.vstr s2) ty smap s hs rfl hany.1, herr]
        rfl
    | vint n =>
      simp only [anyMissingInput, Bool.and_eq_true] at hany
      simp only [anyNullInput, hany.1, Bool.true_and] at hnull
      rcases hdich (.vint n) ty s [] hs hsz hnull with
        ⟨idv, st', hok, hf⟩ | ⟨ik, t, herr, _⟩
      · rw [hany.2] at hf
        exact absurd hf (by simp)
      · refine ⟨ik, t, ?_⟩
        rw [normalize_single_truthy fuel (.vint n) ty smap s hs rfl hany.1, herr]
        rfl
    | vbool b =>
      simp only [anyMissingInput, Bool.and_eq_true] at hany
      simp only [anyNullInput, hany.1, Bool.true_and] at hnull
      rcases hdich (.vbool b) ty s [] hs hsz hnull with
        ⟨idv, st', hok, hf⟩ | ⟨ik, t, herr, _⟩
      · rw [hany.2] at hf
        exact absurd hf (by simp)
      · refine ⟨ik, t, ?_⟩
        rw [normalize_single_truthy fuel (.vbool b) ty smap s hs rfl hany.1, herr]
        rfl
    | vobj o =>
      simp only [anyMissingInput, Bool.and_eq_true] at hany
      simp only [anyNullInput, hany.1, Bool.true_and] at hnull
      rcases hdich (.vobj o) ty s [] hs hsz hnull with
        ⟨idv, st', hok, hf⟩ | ⟨ik, t, herr, _⟩
      · rw [hany.2] at hf
        exact absurd hf (by simp)
      · refine ⟨ik, t, ?_⟩
        rw [normalize_single_truthy fuel (.vobj o) ty smap s hs rfl hany.1, herr]
        rfl

/-- C6 witness: the local missing-identifier part at a top-level entity
without an id, the `TypeError` thrown when the visited entity is `null`, and
a nested comment without an id making the whole blog-shaped normalization
fail with the MissingIdentifier error. -/
theorem normalize_missing_id_witness :
    processEntity [("t", createEntitySchema "id" [])] 1 (.vobj [("name", .vstr "a")]) "t"
      (some (createEntitySchema "id" [])) [] =
      .error (.missingId (schemaIdKey (createEntitySchema "id" [])) "t") ∧
    processEntity [("t", createEntitySchema "id" [])] 1 .vnull "t"
      (some (createEntitySchema "id" [])) [] =
      .error (.typeError (schemaIdKey (createEntitySchema "id" []))) ∧
    (∃ ik t, normalize
        (sizeOf (Value.varr [Value.vobj [("id", Value.vstr "p"),
          ("comments", Value.varr [Value.vobj [("body", Value.vstr "no id here")]])]]) + 1)
        (.varr [.vobj [("id", .vstr "p"),
          ("comments", .varr [.vobj [("body", .vstr "no id here")]])]]) "posts"
        [("posts", createEntitySchema "id" [("comments", hasMany "comments")]),
         ("comments", createEntitySchema "id" [])] =
        .error (.missingId ik t)) :=
  ⟨normalize_missing_id_spec.1 [("t", createEntitySchema "id" [])] 0
      (.vobj [("name", .vstr "a")]) "t" (createEntitySchema "id" []) [] rfl,
   normalize_missing_id_spec.2.1 [("t", createEntitySchema "id" [])] 0 "t"
      (createEntitySchema "id" []) [],
   normalize_missing_id_spec.2.2
      [("posts", createEntitySchema "id" [("comments", hasMany "comments")]),
       ("comments", createEntitySchema "id" [])]
      (sizeOf (Value.varr [Value.vobj [("id", Value.vstr "p"),
        ("comments", Value.varr [Value.vobj [("body", Value.vstr "no id here")]])]]) + 1)
      (.varr [.vobj [("id", .vstr "p"),
        ("comments", .varr [.vobj [("body", .vstr "no id here")]])]]) "posts"
      (createEntitySchema "id" [("comments", hasMany "comments")])
      (by unfold SchemaWF; decide) rfl (Nat.lt_succ_self _) (by decide) (by decide)⟩

/-! Claim C1: support lemmas. -/

theorem vbeq_list_sound (fuel : Nat) (ih : ∀ a b, vbeq fuel a b = true → a = b) :
    ∀ (xs ys : List Value), xs.length = ys.length →
      (∀ a b, (a, b) ∈ xs.zip ys → vbeq fuel a b = true) → xs = ys := by
  intro xs
  induction xs with
  | nil =>
    intro ys hl _
    cases ys with
    | nil => rfl
    | cons y yr => simp at hl
  | cons x xr ihx =>
    intro ys hl hall
    cases ys with
    | nil => simp at hl
    | cons y yr =>
      have hx := ih x y (hall x y (by rw [List.zip_cons_cons]; exact List.mem_cons_self _ _))
      have hr := ihx yr (by simpa using hl)
        (fun a b hm => hall a b (by rw [List.zip_cons_cons]; exact List.mem_cons_of_mem _ hm))
      rw [hx, hr]

theorem vbeq_fields_sound (fuel : Nat) (ih : ∀ a b, vbeq fuel a b = true → a = b) :
    ∀ (xs ys : List (String × Value)), xs.length = ys.length →
      (∀ a b a2 b2, ((a, b), (a2, b2)) ∈ xs.zip ys → a = a2 ∧ vbeq fuel b b2 = true) →
      xs = ys := by
  intro xs
  induction xs with
  | nil =>
    intro ys hl _
    cases ys with
    | nil => rfl
    | cons y yr => simp at hl
  | cons x xr ihx =>
    intro ys hl hall
    cases ys with
    | nil => simp at hl
    | cons y yr =>
      obtain ⟨xk, xv⟩ := x
      obtain ⟨yk, yv⟩ := y
      have hx := hall xk xv yk yv
        (by rw [List.zip_cons_cons]; exact List.mem_cons_self _ _)
      have hr := ihx yr (by simpa using hl)
        (fun a b a2 b2 hm => hall a b a2 b2
          (by rw [List.zip_cons_cons]; exact List.mem_cons_of_mem _ hm))
      rw [hx.1, ih _ _ hx.2, hr]

theorem vbeq_sound : ∀ (fuel : Nat) (a b : Value), vbeq fuel a b = true → a = b := by
  intro fuel
  induction fuel with
  | zero =>
    intro a b h
    simp [vbeq] at h
  | succ fuel ih =>
    intro a b h
    cases a with
    | vnull => cases b <;> simp [vbeq] at h <;> rfl
    | vstr s1 =>
      cases b <;> simp [vbeq] at h
      rw [h]
    | vint n1 =>
      cases b <;> simp [vbeq] at h
      rw [h]
    | vbool b1 =>
      cases b <;> simp [vbeq] at h
      rw [h]
    | varr xs =>
      cases b <;> simp [vbeq] at h
      rename_i ys
      exact congrArg Value.varr (vbeq_list_sound fuel ih xs ys h.1 (fun a b hm => h.2 a b hm))
    | vobj xs =>
      cases b <;> simp [vbeq] at h
      rename_i ys
      exact congrArg Value.vobj (vbeq_fields_sound fuel ih xs ys h.1
        (fun a b a2 b2 hm => h.2 a b a2 b2 hm))

theorem consistentKeyed_sound (fuel : Nat) :
    ∀ L, consistentKeyed fuel L = true → ConsistentL L := by
  intro L
  induction L with
  | nil =>
    intro _ tri1 h1
    exact absurd h1 (List.not_mem_nil _)
  | cons hd rest ih =>
    intro h
    obtain ⟨t, k, e⟩ := hd
    rw [consistentKeyed, Bool.and_eq_true] at h
    have hC := ih h.2
    intro tri1 h1 tri2 h2 ht hk
    rcases List.mem_cons.mp h1 with rfl | h1r <;> rcases List.mem_cons.mp h2 with rfl | h2r
    · rfl
    · have hb := h.1
      rw [List.all_eq_true] at hb
      have := hb tri2 h2r
      simp only [← ht, ← hk, beq_self_eq_true, Bool.and_self, Bool.not_true,
        Bool.false_or] at this
      exact vbeq_sound fuel _ _ this
    · have hb := h.1
      rw [List.all_eq_true] at hb
      have := hb tri1 h1r
      simp only [ht, hk, beq_self_eq_true, Bool.and_self, Bool.not_true,
        Bool.false_or] at this
      exact (vbeq_sound fuel _ _ this).symm
    · exact hC tri1 h1r tri2 h2r ht hk

theorem assocSet_assocSet_same (k : String) (v w : α) (l : List (String × α)) :
    assocSet k v (assocSet k w l) = assocSet k v l := by
  induction l with
  | nil => simp [assocSet]
  | cons p r ih =>
    obtain ⟨a, b⟩ := p
    by_cases h : a = k <;> simp [assocSet, h, ih]

theorem assocSet_lookup_self {l : List (String × α)} (h : assocGet k l = some v) :
    assocSet k v l = l := by
  induction l with
  | nil => simp [assocGet] at h
  | cons p r ih =>
    obtain ⟨a, b⟩ := p
    rw [assocGet] at h
    by_cases ha : a = k
    · rw [if_pos ha] at h
      obtain rfl := Option.some.inj h
      subst ha
      simp [assocSet]
    · rw [if_neg ha] at h
      simp [assocSet, ha, ih h]

theorem assocSet_comm_present {k1 k2 : String} {l : List (String × α)} {w : α}
    (hne : k1 ≠ k2) (hp : assocGet k1 l = some w) (v1 v2 : α) :
    assocSet k1 v1 (assocSet k2 v2 l) = assocSet k2 v2 (assocSet k1 v1 l) := by
  induction l with
  | nil => simp [assocGet] at hp
  | cons p r ih =>
    obtain ⟨a, b⟩ := p
    rw [assocGet] at hp
    by_cases h1 : a = k1
    · subst h1
      simp [assocSet, hne, Ne.symm hne]
    · rw [if_neg h1] at hp
      by_cases h2 : a = k2
      · subst h2
        simp [assocSet, h1, Ne.symm hne]
      · simp [assocSet, h1, h2, ih hp]

theorem normRelStep_frame (smap : SchemaMap) (fds : List (String × Value))
    (kr : String × Rel) (k2 : String) (h : k2 ≠ kr.1) :
    assocGet k2 (normRelStep smap fds kr) = assocGet k2 fds := by
  obtain ⟨k1, t1, b1⟩ := kr
  rw [normRelStep]
  cases hv : assocGet k1 fds with
  | none => rfl
  | some v =>
    cases b1 with
    | true =>
      cases v with
      | varr items => exact assocGet_assocSet_ne h _ _
      | vnull => rfl
      | vstr s => rfl
      | vint n => rfl
      | vbool b => rfl
      | vobj o => rfl
    | false =>
      cases v with
      | vnull => rfl
      | varr items => exact assocGet_assocSet_ne h _ _
      | vstr s => exact assocGet_assocSet_ne h _ _
      | vint n => exact assocGet_assocSet_ne h _ _
      | vbool b => exact assocGet_assocSet_ne h _ _
      | vobj o => exact assocGet_assocSet_ne h _ _

theorem normRelStep_set_comm (smap : SchemaMap) (fds : List (String × Value))
    (kr : String × Rel) (k : String) (v : Value) (h : k ≠ kr.1) :
    normRelStep smap (assocSet k v fds) kr = assocSet k v (normRelStep smap fds kr) := by
  obtain ⟨k1, t1, b1⟩ := kr
  rw [normRelStep, normRelStep, assocGet_assocSet_ne (Ne.symm h)]
  cases hv : assocGet k1 fds with
  | none => rfl
  | some w =>
    cases b1 with
    | true =>
      cases w with
      | varr items => exact assocSet_comm_present (Ne.symm h) hv _ _
      | vnull => rfl
      | vstr s => rfl
      | vint n => rfl
      | vbool b => rfl
      | vobj o => rfl
    | false =>
      cases w with
      | vnull => rfl
      | varr items => exact assocSet_comm_present (Ne.symm h) hv _ _
      | vstr s => exact assocSet_comm_present (Ne.symm h) hv _ _
      | vint n => exact assocSet_comm_present (Ne.symm h) hv _ _
      | vbool b => exact assocSet_comm_present (Ne.symm h) hv _ _
      | vobj o => exact assocSet_comm_present (Ne.symm h) hv _ _

theorem normFieldsAux_frame (smap : SchemaMap) (k : String) :
    ∀ (rels : List (String × Rel)) (fds : List (String × Value)),
      k ∉ rels.map Prod.fst →
      assocGet k (normFieldsAux smap rels fds) = assocGet k fds := by
  intro rels
  induction rels with
  | nil => intro fds _; rfl
  | cons kr rest ih =>
    intro fds hk
    rw [List.map_cons, List.mem_cons] at hk
    push_neg at hk
    rw [normFieldsAux, ih _ hk.2, normRelStep_frame smap fds kr k hk.1]

theorem normFieldsAux_set_comm (smap : SchemaMap) (k : String) (v : Value) :
    ∀ (rels : List (String × Rel)) (fds : List (String × Value)),
      k ∉ rels.map Prod.fst →
      normFieldsAux smap rels (assocSet k v fds) =
        assocSet k v (normFieldsAux smap rels fds) := by
  intro rels
  induction rels with
  | nil => intro fds _; rfl
  | cons kr rest ih =>
    intro fds hk
    rw [List.map_cons, List.mem_cons] at hk
    push_neg at hk
    rw [normFieldsAux, normFieldsAux, normRelStep_set_comm smap fds kr k v hk.1, ih _ hk.2]

theorem Effect_nil (smap : SchemaMap) (st : Entities) : Effect smap st st [] :=
  fun _ _ => Or.inl ⟨rfl, by simp⟩

theorem Effect_trans {smap : SchemaMap} {st st1 st2 : Entities}
    {L1 L2 : List (String × String × Value)}
    (h1 : Effect smap st st1 L1) (h2 : Effect smap st1 st2 L2) :
    Effect smap st st2 (L1 ++ L2) := by
  intro t k
  rcases h2 t k with ⟨heq2, hni2⟩ | ⟨e2, hm2, hv2⟩
  · rcases h1 t k with ⟨heq1, hni1⟩ | ⟨e1, hm1, hv1⟩
    · refine Or.inl ⟨heq2.trans heq1, ?_⟩
      intro e hmem
      rcases List.mem_append.mp hmem with hA | hB
      · exact hni1 e hA
      · exact hni2 e hB
    · exact Or.inr ⟨e1, List.mem_append_left _ hm1, heq2.trans hv1⟩
  · exact Or.inr ⟨e2, List.mem_append_right _ hm2, hv2⟩

theorem wfE_elim {smap : SchemaMap} {fuel : Nat} {e : Value} {ty : String}
    (h : wfE smap (fuel + 1) e ty = true) :
    ∃ s fds idv, assocGet ty smap = some s ∧ e = .vobj fds ∧
      assocGet (schemaIdKey s) fds = some idv ∧ idv.isNullV = false ∧ idv.isArr = false ∧
      ((relsOf s).map Prod.fst).Nodup ∧
      ∀ kr ∈ relsOf s, relWF (fun e2 ty2 => wfE smap fuel e2 ty2) fds kr = true := by
  rw [wfE] at h
  cases hts : assocGet ty smap with
  | none => rw [hts] at h; simp at h
  | some s =>
    rw [hts] at h
    cases e with
    | vobj fds =>
      simp only [Bool.and_eq_true, List.all_eq_true, decide_eq_true_eq] at h
      cases hid : assocGet (schemaIdKey s) fds with
      | none => rw [hid] at h; simp at h
      | some idv =>
        rw [hid] at h
        obtain ⟨⟨hidb, hnd⟩, hall⟩ := h
        rw [Bool.and_eq_true, Bool.not_eq_true', Bool.not_eq_true'] at hidb
        exact ⟨s, fds, idv, rfl, rfl, hid, hidb.1, hidb.2, hnd, hall⟩
    | vnull => simp at h
    | vstr s2 => simp at h
    | vint n => simp at h
    | vbool b => simp at h
    | varr l => simp at h

theorem entId_of_wf {smap : SchemaMap} {s : EntitySchema} {fds : List (String × Value)}
    {idv : Value} {ty : String} (hts : assocGet ty smap = some s)
    (hid : assocGet (schemaIdKey s) fds = some idv) :
    entId smap ty (.vobj fds) = idv := by
  rw [entId, hts]
  simp [fieldsOf, hid]

theorem relWF_plural (r : Value → String → Bool) (fds0 : List (String × Value))
    (k1 t1 : String) (items : List Value)
    (hv0 : assocGet k1 fds0 = some (.varr items)) :
    relWF r fds0 (k1, ⟨t1, true⟩) = items.all (fun it => r it t1) := by
  simp only [relWF, hv0]
  rfl

theorem relWF_single (r : Value → String → Bool) (fds0 : List (String × Value))
    (k1 t1 : String) (v : Value) (hv0 : assocGet k1 fds0 = some v)
    (hnv : v.isNullV = false) :
    relWF r fds0 (k1, ⟨t1, false⟩) = r v t1 := by
  simp only [relWF, hv0]
  cases v with
  | vnull => simp [Value.isNullV] at hnv
  | varr l => rfl
  | vstr s => rfl
  | vint n => rfl
  | vbool b => rfl
  | vobj o => rfl

theorem relWF_plural_shape (r : Value → String → Bool) (fds0 : List (String × Value))
    (k1 t1 : String) (v : Value) (hv0 : assocGet k1 fds0 = some v)
    (h : relWF r fds0 (k1, ⟨t1, true⟩) = true) :
    ∃ items, v = .varr items ∧ items.all (fun it => r it t1) = true := by
  simp only [relWF, hv0] at h
  cases v with
  | varr items => exact ⟨items, rfl, h⟩
  | vnull => simp at h
  | vstr s => simp at h
  | vint n => simp at h
  | vbool b => simp at h
  | vobj o => simp at h

theorem relCollect_absent (rc : Value → String → List (String × String × Value))
    (fds0 : List (String × Value)) (k1 : String) (rel : Rel)
    (hv0 : assocGet k1 fds0 = none) :
    relCollect rc fds0 (k1, rel) = [] := by
  simp only [relCollect, hv0]

theorem relCollect_plural (rc : Value → String → List (String × String × Value))
    (fds0 : List (String × Value)) (k1 t1 : String) (items : List Value)
    (hv0 : assocGet k1 fds0 = some (.varr items)) :
    relCollect rc fds0 (k1, ⟨t1, true⟩) =
      items.foldr (fun it acc => rc it t1 ++ acc) [] := by
  simp only [relCollect, hv0]
  rfl

theorem relCollect_null (rc : Value → String → List (String × String × Value))
    (fds0 : List (String × Value)) (k1 t1 : String)
    (hv0 : assocGet k1 fds0 = some .vnull) :
    relCollect rc fds0 (k1, ⟨t1, false⟩) = [] := by
  simp only [relCollect, hv0]
  rfl

theorem relCollect_single (rc : Value → String → List (String × String × Value))
    (fds0 : List (String × Value)) (k1 t1 : String) (v : Value)
    (hv0 : assocGet k1 fds0 = some v) (hnv : v.isNullV = false) :
    relCollect rc fds0 (k1, ⟨t1, false⟩) = rc v t1 := by
  simp only [relCollect, hv0]
  cases v with
  | vnull => simp [Value.isNullV] at hnv
  | varr l => rfl
  | vstr s => rfl
  | vint n => rfl
  | vbool b => rfl
  | vobj o => rfl

theorem assocGet_append_single (t ty : String) (x : α) (l : List (String × α)) :
    assocGet t (l ++ [(ty, x)]) =
      match assocGet t l with
      | some v => some v
      | none => if ty = t then some x else none := by
  induction l with
  | nil => simp [assocGet]
  | cons p r ih =>
    obtain ⟨a, b⟩ := p
    by_cases h : a = t <;> simp [assocGet, h, ih]

theorem ensureColl_bind_lookup (st : Entities) (ty t k : String) :
    (assocGet t (ensureColl st ty)).bind (assocGet k) =
      (assocGet t st).bind (assocGet k) := by
  rw [ensureColl]
  cases hc : assocGet ty st with
  | some c => rfl
  | none =>
    rw [assocGet_append_single]
    cases ht : assocGet t st with
    | some c => rfl
    | none =>
      by_cases hty : ty = t
      · simp [hty, assocGet]
      · simp [hty]

theorem Effect_ensure (smap : SchemaMap) (st : Entities) (ty : String) :
    Effect smap st (ensureColl st ty) [] :=
  fun t k => Or.inl ⟨ensureColl_bind_lookup st ty t k, by simp⟩

theorem Effect_insert (smap : SchemaMap) (st1 : Entities) (ty k0 : String) (e : Value) :
    Effect smap st1 (insertEnt st1 ty k0 (normFields smap ty e)) [(ty, k0, e)] := by
  intro t k
  by_cases ht : t = ty
  · subst ht
    by_cases hk : k = k0
    · subst hk
      refine Or.inr ⟨e, List.mem_singleton.mpr rfl, ?_⟩
      rw [insertEnt]
      simp
    · refine Or.inl ⟨?_, ?_⟩
      · rw [insertEnt]
        simp only [assocGet_assocSet_self, Option.some_bind]
        rw [assocGet_assocSet_ne hk]
        cases hc : assocGet t st1 with
        | some c => rfl
        | none => simp [assocGet]
      · intro e2 hmem
        exact hk (congrArg (fun tri => tri.2.1) (List.mem_singleton.mp hmem))
  · refine Or.inl ⟨?_, ?_⟩
    · rw [insertEnt, assocGet_assocSet_ne ht]
    · intro e2 hmem
      exact ht (congrArg (fun tri => tri.1) (List.mem_singleton.mp hmem))

theorem processItemsF_wf_ok (smap : SchemaMap) (fuel : Nat) (tyt : String)
    (IH : ∀ (e2 : Value) (ty2 : String) (st2 : Entities), wfE smap fuel e2 ty2 = true →
      ∃ st2', processEntity smap fuel e2 ty2 (assocGet ty2 smap) st2 =
          .ok (entId smap ty2 e2, st2') ∧
        Effect smap st2 st2' (collectEnts smap fuel e2 ty2)) :
    ∀ (items : List Value) (st : Entities),
      items.all (fun it => wfE smap fuel it tyt) = true →
      ∃ st', processItemsF (fun it s => processEntity smap fuel it tyt (assocGet tyt smap) s)
          items st = .ok (items.map (entId smap tyt), st') ∧
        Effect smap st st' (items.foldr (fun it acc => collectEnts smap fuel it tyt ++ acc) []) := by
  intro items
  induction items with
  | nil =>
    intro st _
    exact ⟨st, rfl, Effect_nil smap st⟩
  | cons it rest ih =>
    intro st hall
    rw [List.all_cons, Bool.and_eq_true] at hall
    obtain ⟨st1, hok1, heff1⟩ := IH it tyt st hall.1
    obtain ⟨st2, hok2, heff2⟩ := ih st1 hall.2
    refine ⟨st2, ?_, Effect_trans heff1 heff2⟩
    simp only [processItemsF_cons, hok1, except_ok_bind, hok2, List.map_cons]

theorem processRelsF_wf_ok (smap : SchemaMap) (fuel : Nat)
    (IH : ∀ (e2 : Value) (ty2 : String) (st2 : Entities), wfE smap fuel e2 ty2 = true →
      ∃ st2', processEntity smap fuel e2 ty2 (assocGet ty2 smap) st2 =
          .ok (entId smap ty2 e2, st2') ∧
        Effect smap st2 st2' (collectEnts smap fuel e2 ty2))
    (fds0 : List (String × Value)) :
    ∀ (rels : List (String × Rel)) (fds : List (String × Value)) (st : Entities),
      (rels.map Prod.fst).Nodup →
      (∀ kr ∈ rels, assocGet kr.1 fds = assocGet kr.1 fds0) →
      (∀ kr ∈ rels, relWF (fun e2 ty2 => wfE smap fuel e2 ty2) fds0 kr = true) →
      ∃ st', processRelsF smap (processEntity smap fuel) rels fds st =
          .ok (normFieldsAux smap rels fds, st') ∧
        Effect smap st st' (rels.foldr (fun kr acc =>
          relCollect (fun e2 ty2 => collectEnts smap fuel e2 ty2) fds0 kr ++ acc) []) := by
  intro rels
  induction rels with
  | nil =>
    intro fds st _ _ _
    exact ⟨st, rfl, Effect_nil smap st⟩
  | cons kr rest ihr =>
    intro fds st hnd hread hwf
    obtain ⟨k1, rel⟩ := kr
    rw [List.map_cons, List.nodup_cons] at hnd
    have hread1 : assocGet k1 fds = assocGet k1 fds0 :=
      hread (k1, rel) (List.mem_cons_self _ _)
    have hreadrest : ∀ kr2 ∈ rest, assocGet kr2.1 fds = assocGet kr2.1 fds0 :=
      fun kr2 h2 => hread kr2 (List.mem_cons_of_mem _ h2)
    have hwfrest : ∀ kr2 ∈ rest, relWF (fun e2 ty2 => wfE smap fuel e2 ty2) fds0 kr2 = true :=
      fun kr2 h2 => hwf kr2 (List.mem_cons_of_mem _ h2)
    have hwf1 := hwf (k1, rel) (List.mem_cons_self _ _)
    have hpres : ∀ (w : Value), ∀ kr2 ∈ rest,
        assocGet kr2.1 (assocSet k1 w fds) = assocGet kr2.1 fds0 := by
      intro w kr2 h2
      have hne : kr2.1 ≠ k1 := by
        intro hcon
        exact hnd.1 (hcon ▸ List.mem_map.mpr ⟨kr2, h2, rfl⟩)
      rw [assocGet_assocSet_ne hne, hreadrest kr2 h2]
    cases hv0 : assocGet k1 fds0 with
    | none =>
      have hv : assocGet k1 fds = none := by rw [hread1, hv0]
      obtain ⟨st', hok, heff⟩ := ihr fds st hnd.2 hreadrest hwfrest
      refine ⟨st', ?_, ?_⟩
      · rw [processRelsF_cons_absent smap (processEntity smap fuel) k1 rel rest fds st hv,
          hok, normFieldsAux]
        rw [show normRelStep smap fds (k1, rel) = fds by rw [normRelStep, hv]]
      · rw [List.foldr_cons, relCollect_absent _ _ _ _ hv0, List.nil_append]
        exact heff
    | some v =>
      have hv : assocGet k1 fds = some v := by rw [hread1, hv0]
      obtain ⟨t1, b1⟩ := rel
      cases b1 with
      | true =>
        obtain ⟨items, rfl, hallwf⟩ := relWF_plural_shape _ fds0 k1 t1 v hv0 hwf1
        obtain ⟨st1, hokI, heffI⟩ := processItemsF_wf_ok smap fuel t1 IH items st hallwf
        obtain ⟨st', hok, heff⟩ := ihr (assocSet k1 (.varr (items.map (entId smap t1))) fds)
          st1 hnd.2 (hpres _) hwfrest
        refine ⟨st', ?_, ?_⟩
        · rw [processRelsF_cons_plural smap (processEntity smap fuel) k1 t1 rest fds st
            items hv, hokI]
          simp only [except_ok_bind]
          rw [hok, normFieldsAux]
          rw [show normRelStep smap fds (k1, (⟨t1, true⟩ : Rel)) =
            assocSet k1 (.varr (items.map (entId smap t1))) fds by
              rw [normRelStep, hv]
              rfl]
        · rw [List.foldr_cons, relCollect_plural _ _ _ _ _ hv0]
          exact Effect_trans heffI heff
      | false =>
        cases hnv : v.isNullV with
        | true =>
          have hveq : v = .vnull := by
            cases v <;> simp [Value.isNullV] at hnv <;> rfl
          subst hveq
          obtain ⟨st', hok, heff⟩ := ihr fds st hnd.2 hreadrest hwfrest
          refine ⟨st', ?_, ?_⟩
          · rw [processRelsF_cons_single_null smap (processEntity smap fuel) k1 t1 rest
              fds st hv, hok, normFieldsAux]
            rw [show normRelStep smap fds (k1, (⟨t1, false⟩ : Rel)) = fds by
              rw [normRelStep, hv]
              rfl]
          · rw [List.foldr_cons, relCollect_null _ _ _ _ hv0, List.nil_append]
            exact heff
        | false =>
          rw [relWF_single _ fds0 k1 t1 v hv0 hnv] at hwf1
          obtain ⟨st1, hokE, heffE⟩ := IH v t1 st hwf1
          obtain ⟨st', hok, heff⟩ := ihr (assocSet k1 (entId smap t1 v) fds) st1
            hnd.2 (hpres _) hwfrest
          refine ⟨st', ?_, ?_⟩
          · rw [processRelsF_cons_single smap (processEntity smap fuel) k1 t1 rest fds st
              v hv hnv, hokE]
            simp only [except_ok_bind]
            rw [hok, normFieldsAux]
            rw [show normRelStep smap fds (k1, (⟨t1, false⟩ : Rel)) =
              assocSet k1 (entId smap t1 v) fds by
                rw [normRelStep, hv]
                cases v with
                | vnull => simp [Value.isNullV] at hnv
                | varr l => rfl
                | vstr s => rfl
                | vint n => rfl
                | vbool b => rfl
                | vobj o => rfl]
          · rw [List.foldr_cons, relCollect_single _ _ _ _ _ hv0 hnv]
            exact Effect_trans heffE heff

theorem processEntity_wf_ok (smap : SchemaMap) :
    ∀ (fuel : Nat) (e : Value) (ty : String) (st : Entities),
      wfE smap fuel e ty = true →
      ∃ st', processEntity smap fuel e ty (assocGet ty smap) st =
          .ok (entId smap ty e, st') ∧
        Effect smap st st' (collectEnts smap fuel e ty) := by
  intro fuel
  induction fuel with
  | zero =>
    intro e ty st h
    simp [wfE] at h
  | succ fuel ihf =>
    intro e ty st h
    obtain ⟨s, fds, idv, hts, rfl, hid, hnn, hna, hnd, hwf⟩ := wfE_elim h
    have hent : entId smap ty (.vobj fds) = idv := entId_of_wf hts hid
    obtain ⟨st1, hrels, heff⟩ := processRelsF_wf_ok smap fuel ihf fds (relsOf s) fds
      (ensureColl st ty) hnd (fun _ _ => rfl) hwf
    refine ⟨insertEnt st1 ty (idToKey idv) (normFieldsAux smap (relsOf s) fds), ?_, ?_⟩
    · rw [hts, hent,
        processEntity_succ smap fuel (.vobj fds) ty s st idv (by simp [fieldGet, hid])]
      have hfof : fieldsOf (Value.vobj fds) = fds := rfl
      rw [hfof, hrels]
      simp only [except_ok_bind]
    · have hnf : normFieldsAux smap (relsOf s) fds = normFields smap ty (.vobj fds) := by
        rw [normFields, hts]
        rfl
      have hcoll : collectEnts smap (fuel + 1) (.vobj fds) ty =
          ((relsOf s).foldr (fun kr acc =>
            relCollect (fun e2 ty2 => collectEnts smap fuel e2 ty2) fds kr ++ acc) []) ++
          [(ty, idToKey (entId smap ty (.vobj fds)), .vobj fds)] := by
        rw [collectEnts, hts]
        rfl
      rw [hcoll, hent]
      have hins := Effect_insert smap st1 ty (idToKey idv) (.vobj fds)
      rw [← hnf] at hins
      have := Effect_trans (Effect_trans (Effect_ensure smap st ty) heff) hins
      simpa using this

theorem StoresAll_mono {smap : SchemaMap} {st : Entities}
    {L1 L2 : List (String × String × Value)} (hsub : ∀ tri ∈ L1, tri ∈ L2)
    (h : StoresAll smap st L2) : StoresAll smap st L1 :=
  fun tri htri => h tri (hsub tri htri)

theorem mem_foldr_append {f : β → List γ} {b : β} {x : γ} :
    ∀ {l : List β}, b ∈ l → x ∈ f b → x ∈ l.foldr (fun y acc => f y ++ acc) [] := by
  intro l
  induction l with
  | nil => intro hb; exact absurd hb (List.not_mem_nil _)
  | cons y yr ih =>
    intro hb hx
    rw [List.foldr_cons]
    rcases List.mem_cons.mp hb with rfl | hb2
    · exact List.mem_append_left _ hx
    · exact List.mem_append_right _ (ih hb2 hx)

theorem wfE_isObj {smap : SchemaMap} {fuel : Nat} {e : Value} {ty : String}
    (h : wfE smap fuel e ty = true) : ∃ fds2, e = .vobj fds2 := by
  cases fuel with
  | zero => simp [wfE] at h
  | succ fuel =>
    obtain ⟨_, fds, _, _, he, _⟩ := wfE_elim h
    exact ⟨fds, he⟩

theorem wfE_id_not_null {smap : SchemaMap} {fuel : Nat} {e : Value} {ty : String}
    (h : wfE smap fuel e ty = true) : (entId smap ty e).isNullV = false := by
  cases fuel with
  | zero => simp [wfE] at h
  | succ fuel =>
    obtain ⟨s, fds, idv, hts, rfl, hid, hnn, _⟩ := wfE_elim h
    rw [entId_of_wf hts hid]
    exact hnn

theorem mapped_fields_eq :
    ∀ (items : List Value), (∀ it ∈ items, ∃ f2, it = Value.vobj f2) →
      ((items.map (fun it => some (fieldsOf it))).filterMap id).map Value.vobj = items := by
  intro items
  induction items with
  | nil => intro _; rfl
  | cons it rest ih =>
    intro hall
    obtain ⟨f2, hf2⟩ := hall it (List.mem_cons_self _ _)
    simp only [List.map_cons, List.filterMap_cons, id]
    rw [ih (fun x hx => hall x (List.mem_cons_of_mem _ hx))]
    subst hf2
    rfl

theorem denorm_forall2 (g : Value → String → Except JsErr (Option Entity)) (t1 : String)
    (idf : Value → Value) :
    ∀ (items : List Value), (∀ it ∈ items, g (idf it) t1 = .ok (some (fieldsOf it))) →
      List.Forall₂ (fun j r => g j t1 = .ok r) (items.map idf)
        (items.map (fun it => some (fieldsOf it))) := by
  intro items
  induction items with
  | nil => intro _; exact List.Forall₂.nil
  | cons it rest ih =>
    intro hall
    exact List.Forall₂.cons (hall it (List.mem_cons_self _ _))
      (ih (fun x hx => hall x (List.mem_cons_of_mem _ hx)))

theorem denormRelsF_roundtrip (smap : SchemaMap) (stF : Entities) (fuel : Nat)
    (IH : ∀ (e2 : Value) (ty2 : String), wfE smap fuel e2 ty2 = true →
      StoresAll smap stF (collectEnts smap fuel e2 ty2) →
      denormalizeSingle smap stF fuel (entId smap ty2 e2) ty2 = .ok (some (fieldsOf e2)))
    (fds0 : List (String × Value)) :
    ∀ (rels : List (String × Rel)),
      (rels.map Prod.fst).Nodup →
      (∀ kr ∈ rels, relWF (fun e2 ty2 => wfE smap fuel e2 ty2) fds0 kr = true) →
      StoresAll smap stF (rels.foldr (fun kr acc =>
        relCollect (fun e2 ty2 => collectEnts smap fuel e2 ty2) fds0 kr ++ acc) []) →
      denormRelsF (denormalizeSingle smap stF fuel) rels
        (normFieldsAux smap rels fds0) = .ok fds0 := by
  intro rels
  induction rels with
  | nil => intro _ _ _; rfl
  | cons kr rest ihr =>
    intro hnd hwf hstore
    obtain ⟨k1, rel⟩ := kr
    rw [List.map_cons, List.nodup_cons] at hnd
    have hwfrest : ∀ kr2 ∈ rest, relWF (fun e2 ty2 => wfE smap fuel e2 ty2) fds0 kr2 = true :=
      fun kr2 h2 => hwf kr2 (List.mem_cons_of_mem _ h2)
    have hwf1 := hwf (k1, rel) (List.mem_cons_self _ _)
    have hstorerest : StoresAll smap stF (rest.foldr (fun kr2 acc =>
        relCollect (fun e2 ty2 => collectEnts smap fuel e2 ty2) fds0 kr2 ++ acc) []) := by
      refine StoresAll_mono ?_ hstore
      intro tri htri
      rw [List.foldr_cons]
      exact List.mem_append_right _ htri
    have hstorehead : ∀ tri ∈ relCollect (fun e2 ty2 => collectEnts smap fuel e2 ty2)
        fds0 (k1, rel), (assocGet tri.1 stF).bind (assocGet tri.2.1) =
          some (normFields smap tri.1 tri.2.2) := by
      intro tri htri
      refine hstore tri ?_
      rw [List.foldr_cons]
      exact List.mem_append_left _ htri
    cases hv0 : assocGet k1 fds0 with
    | none =>
      have hstep : normRelStep smap fds0 (k1, rel) = fds0 := by rw [normRelStep, hv0]
      rw [normFieldsAux, hstep]
      have hread : assocGet k1 (normFieldsAux smap rest fds0) = none := by
        rw [normFieldsAux_frame smap k1 rest fds0 hnd.1, hv0]
      rw [denormRelsF_cons_absent _ k1 rel rest _ hread]
      exact ihr hnd.2 hwfrest hstorerest
    | some v =>
      obtain ⟨t1, b1⟩ := rel
      cases b1 with
      | true =>
        obtain ⟨items, rfl, hallwf⟩ := relWF_plural_shape _ fds0 k1 t1 v hv0 hwf1
        rw [List.all_eq_true] at hallwf
        have hstep : normRelStep smap fds0 (k1, (⟨t1, true⟩ : Rel)) =
            assocSet k1 (.varr (items.map (entId smap t1))) fds0 := by
          rw [normRelStep, hv0]
          rfl
        rw [normFieldsAux, hstep]
        have hread : assocGet k1 (normFieldsAux smap rest
            (assocSet k1 (.varr (items.map (entId smap t1))) fds0)) =
            some (.varr (items.map (entId smap t1))) := by
          rw [normFieldsAux_frame smap k1 rest _ hnd.1, assocGet_assocSet_self]
        rw [denormRelsF_cons_plural _ k1 t1 rest _ _ hread]
        have hper : ∀ it ∈ items, denormalizeSingle smap stF fuel (entId smap t1 it) t1 =
            .ok (some (fieldsOf it)) := by
          intro it hit
          refine IH it t1 (hallwf it hit) (StoresAll_mono ?_ (fun tri htri =>
            hstorehead tri htri))
          intro tri htri
          rw [relCollect_plural _ _ _ _ _ hv0]
          exact mem_foldr_append hit htri
        rw [denormIdsF_forall _ _ _ _ (denorm_forall2 _ t1 (entId smap t1) items hper)]
        simp only [except_ok_bind]
        rw [mapped_fields_eq items (fun it hit => wfE_isObj (hallwf it hit))]
        rw [← normFieldsAux_set_comm smap k1 (.varr items) rest _ hnd.1,
          assocSet_assocSet_same, assocSet_lookup_self hv0]
        exact ihr hnd.2 hwfrest hstorerest
      | false =>
        cases hnv : v.isNullV with
        | true =>
          have hveq : v = .vnull := by
            cases v <;> simp [Value.isNullV] at hnv <;> rfl
          subst hveq
          have hstep : normRelStep smap fds0 (k1, (⟨t1, false⟩ : Rel)) = fds0 := by
            rw [normRelStep, hv0]
            rfl
          rw [normFieldsAux, hstep]
          have hread : assocGet k1 (normFieldsAux smap rest fds0) = some .vnull := by
            rw [normFieldsAux_frame smap k1 rest fds0 hnd.1, hv0]
          rw [denormRelsF_cons_single_null _ k1 t1 rest _ hread]
          exact ihr hnd.2 hwfrest hstorerest
        | false =>
          rw [relWF_single _ fds0 k1 t1 v hv0 hnv] at hwf1
          have hstep : normRelStep smap fds0 (k1, (⟨t1, false⟩ : Rel)) =
              assocSet k1 (entId smap t1 v) fds0 := by
            rw [normRelStep, hv0]
            cases v with
            | vnull => simp [Value.isNullV] at hnv
            | varr l => rfl
            | vstr s => rfl
            | vint n => rfl
            | vbool b => rfl
            | vobj o => rfl
          rw [normFieldsAux, hstep]
          have hread : assocGet k1 (normFieldsAux smap rest
              (assocSet k1 (entId smap t1 v) fds0)) = some (entId smap t1 v) := by
            rw [normFieldsAux_frame smap k1 rest _ hnd.1, assocGet_assocSet_self]
          rw [denormRelsF_cons_single _ k1 t1 rest _ _ hread (wfE_id_not_null hwf1)]
          have hD : denormalizeSingle smap stF fuel (entId smap t1 v) t1 =
              .ok (some (fieldsOf v)) := by
            refine IH v t1 hwf1 (StoresAll_mono ?_ (fun tri htri => hstorehead tri htri))
            intro tri htri
            rw [relCollect_single _ _ _ _ _ hv0 hnv]
            exact htri
          rw [hD]
          simp only [except_ok_bind]
          obtain ⟨f2, rfl⟩ := wfE_isObj hwf1
          rw [show Value.vobj (fieldsOf (Value.vobj f2)) = Value.vobj f2 from rfl]
          rw [← normFieldsAux_set_comm smap k1 (Value.vobj f2) rest _ hnd.1,
            assocSet_assocSet_same, assocSet_lookup_self hv0]
          exact ihr hnd.2 hwfrest hstorerest

theorem denormalizeSingle_wf_roundtrip (smap : SchemaMap) (stF : Entities) :
    ∀ (fuel : Nat) (e : Value) (ty : String),
      wfE smap fuel e ty = true →
      StoresAll smap stF (collectEnts smap fuel e ty) →
      denormalizeSingle smap stF fuel (entId smap ty e) ty = .ok (some (fieldsOf e)) := by
  intro fuel
  induction fuel with
  | zero =>
    intro e ty h _
    simp [wfE] at h
  | succ fuel ihf =>
    intro e ty h hstore
    obtain ⟨s, fds, idv, hts, rfl, hid, hnn, hna, hnd, hwf⟩ := wfE_elim h
    have hent : entId smap ty (.vobj fds) = idv := entId_of_wf hts hid
    have hcoll : collectEnts smap (fuel + 1) (.vobj fds) ty =
        ((relsOf s).foldr (fun kr acc =>
          relCollect (fun e2 ty2 => collectEnts smap fuel e2 ty2) fds kr ++ acc) []) ++
        [(ty, idToKey (entId smap ty (.vobj fds)), .vobj fds)] := by
      rw [collectEnts, hts]
      rfl
    have hroot : (ty, idToKey idv, Value.vobj fds) ∈
        collectEnts smap (fuel + 1) (.vobj fds) ty := by
      rw [hcoll, hent]
      exact List.mem_append_right _ (List.mem_singleton.mpr rfl)
    have hstored := hstore _ hroot
    simp only at hstored
    cases hcol : assocGet ty stF with
    | none => rw [hcol] at hstored; simp at hstored
    | some coll =>
      rw [hcol, Option.some_bind] at hstored
      rw [hent, denormalizeSingle_found smap stF fuel idv ty coll
        (normFields smap ty (.vobj fds)) s hcol hstored hts]
      have hnf : normFields smap ty (.vobj fds) = normFieldsAux smap (relsOf s) fds := by
        rw [normFields, hts]
        rfl
      rw [hnf, denormRelsF_roundtrip smap stF fuel (fun e2 ty2 => ihf e2 ty2) fds
        (relsOf s) hnd hwf ?hst]
      · rfl
      case hst =>
        refine StoresAll_mono ?_ hstore
        intro tri htri
        rw [hcoll]
        exact List.mem_append_left _ htri

theorem Effect_storesAll {smap : SchemaMap} {st st' : Entities}
    {L : List (String × String × Value)} (heff : Effect smap st st' L)
    (hcons : ConsistentL L) : StoresAll smap st' L := by
  intro tri htri
  rcases heff tri.1 tri.2.1 with ⟨_, hni⟩ | ⟨e2, hm2, hv2⟩
  · refine absurd htri ?_
    have := hni tri.2.2
    simpa using this
  · have he2 : e2 = tri.2.2 := hcons (tri.1, tri.2.1, e2) hm2 tri htri rfl rfl
    rw [← he2]
    exact hv2

theorem denormalize_single_nonarr (smap : SchemaMap) (ents : Entities) (fuel : Nat)
    (idv : Value) (ty : String) (hna : idv.isArr = false) :
    denormalize smap ents fuel idv ty =
      denormalizeSingle smap ents fuel idv ty >>= fun r =>
        .ok (match r with | some ent => .vobj ent | none => .vnull) := by
  cases idv with
  | varr l => simp [Value.isArr] at hna
  | vnull => rfl
  | vstr s => rfl
  | vint n => rfl
  | vbool b => rfl
  | vobj o => rfl

/-- C1 counterexample: the round trip as claimed fails when two top-level
entities share an identifier but differ in content — last write wins in the
collection, and denormalizing the result returns the surviving record twice.
Every hypothesis of the claim holds: the input is acyclic, nested, conforms to
the (relationship-free) schema, and every entity carries an identifier
value. -/
theorem roundtrip_counterexample :
    normalize 5 (.varr [.vobj [("id", .vstr "1"), ("name", .vstr "a")],
        .vobj [("id", .vstr "1"), ("name", .vstr "b")]]) "t"
        [("t", createEntitySchema "id" [])] =
      .ok ⟨[("t", [("1", [("id", .vstr "1"), ("name", .vstr "b")])])],
        .many [.vstr "1", .vstr "1"]⟩ ∧
    denormalize [("t", createEntitySchema "id" [])]
        [("t", [("1", [("id", .vstr "1"), ("name", .vstr "b")])])] 5
        (.varr [.vstr "1", .vstr "1"]) "t" =
      .ok (.varr [.vobj [("id", .vstr "1"), ("name", .vstr "b")],
        .vobj [("id", .vstr "1"), ("name", .vstr "b")]]) ∧
    Value.varr [.vobj [("id", .vstr "1"), ("name", .vstr "b")],
        .vobj [("id", .vstr "1"), ("name", .vstr "b")]] ≠
      Value.varr [.vobj [("id", .vstr "1"), ("name", .vstr "a")],
        .vobj [("id", .vstr "1"), ("name", .vstr "b")]] := by
  refine ⟨rfl, rfl, ?_⟩
  simp

/-- C1 amended: for every well-formed acyclic nested input (an entity or an
array of entities whose relationship fields hold fully nested sub-objects
conforming to the schema map, every entity carrying a non-null, non-array
value at its identifier key, relationship records uniquely keyed), in which
additionally any two visited entities of the same type whose identifiers
coincide as object keys are equal values, normalizing and then denormalizing
the produced `result` against the produced collections returns exactly the
original input. -/
theorem normalize_denormalize_roundtrip :
    ∀ (smap : SchemaMap) (fuel : Nat) (input : Value) (ty : String) (s : EntitySchema),
      assocGet ty smap = some s →
      wfInput smap fuel input ty = true →
      consistentKeyed fuel (collectInput smap fuel input ty) = true →
      ∃ nd, normalize fuel input ty smap = .ok nd ∧
        denormalize smap nd.entities fuel (resultValue nd.result) ty = .ok input := by
  intro smap fuel input ty s hs hwfi hck
  have hcons := consistentKeyed_sound fuel _ hck
  cases input with
  | varr items =>
    simp only [wfInput] at hwfi
    obtain ⟨st', hok, heff⟩ := processItemsF_wf_ok smap fuel ty
      (fun e2 ty2 st2 => processEntity_wf_ok smap fuel e2 ty2 st2) items [] hwfi
    simp only [hs] at hok
    have hSA : StoresAll smap st' (collectInput smap fuel (.varr items) ty) := by
      simp only [collectInput]
      exact Effect_storesAll heff (by simpa [collectInput] using hcons)
    rw [List.all_eq_true] at hwfi
    have hper : ∀ it ∈ items, denormalizeSingle smap st' fuel (entId smap ty it) ty =
        .ok (some (fieldsOf it)) := by
      intro it hit
      refine denormalizeSingle_wf_roundtrip smap st' fuel it ty (hwfi it hit)
        (StoresAll_mono ?_ hSA)
      intro tri htri
      simp only [collectInput]
      exact mem_foldr_append hit htri
    refine ⟨⟨st', .many (items.map (entId smap ty))⟩, ?_, ?_⟩
    · rw [normalize_arr fuel items ty smap s hs, hok]
      rfl
    · simp only [resultValue, denormalize]
      rw [denormIdsF_forall _ _ _ _ (denorm_forall2 _ ty (entId smap ty) items hper),
        mapped_fields_eq items (fun it hit => wfE_isObj (hwfi it hit))]
      rfl
  | vobj fds =>
    simp only [wfInput] at hwfi
    obtain ⟨st', hok, heff⟩ := processEntity_wf_ok smap fuel (.vobj fds) ty [] hwfi
    simp only [hs] at hok
    have hSA : StoresAll smap st' (collectInput smap fuel (.vobj fds) ty) :=
      Effect_storesAll heff hcons
    have hD := denormalizeSingle_wf_roundtrip smap st' fuel (.vobj fds) ty hwfi
      (by simpa [collectInput] using hSA)
    refine ⟨⟨st', .one (entId smap ty (.vobj fds))⟩, ?_, ?_⟩
    · rw [normalize_single_truthy fuel (.vobj fds) ty smap s hs rfl rfl, hok]
      rfl
    · simp only [resultValue]
      have hna : (entId smap ty (.vobj fds)).isArr = false := by
        cases fuel with
        | zero => simp [wfE] at hwfi
        | succ fuel =>
          obtain ⟨s2, fds2, idv, hts2, heq, hid2, _, hnarr, _⟩ := wfE_elim hwfi
          obtain rfl : fds2 = fds := by
            injection heq with h2
            exact h2.symm
          rw [entId_of_wf hts2 hid2]
          exact hnarr
      rw [denormalize_single_nonarr smap st' fuel _ ty hna, hD]
      rfl
  | vnull =>
    cases fuel with
    | zero => simp [wfInput, wfE] at hwfi
    | succ n =>
      simp only [wfInput, wfE, hs] at hwfi
      exact absurd hwfi (by simp)
  | vstr s2 =>
    obtain ⟨f2, hf⟩ := wfE_isObj (by simpa [wfInput] using hwfi)
    exact absurd hf (by simp)
  | vint n =>
    obtain ⟨f2, hf⟩ := wfE_isObj (by simpa [wfInput] using hwfi)
    exact absurd hf (by simp)
  | vbool b =>
    obtain ⟨f2, hf⟩ := wfE_isObj (by simpa [wfInput] using hwfi)
    exact absurd hf (by simp)

/-- C1 witness: the sample blog dataset round trips — it is well formed and
identifier-consistent (shared authors appear with identical content). -/
theorem roundtrip_witness :
    ∃ nd, normalize 10 sampleBlogData "posts" blogSchemas = .ok nd ∧
      denormalize blogSchemas nd.entities 10 (resultValue nd.result) "posts" =
        .ok sampleBlogData :=
  normalize_denormalize_roundtrip blogSchemas 10 sampleBlogData "posts"
    (createEntitySchema "id" [("author", hasOne "users"), ("comments", hasMany "comments")])
    rfl (by decide) (by decide)

end GrxNorm
